import Mathlib

/-
  Verification of the Spider Solitaire rules engine.

  Shallow embedding of `src/gameLogic.ts` (and the hint search of
  `src/App.tsx`) from the repository forevertempest/Spider-Solitaire.

  Modelling conventions:
  * TypeScript arrays become `List`; `arr[arr.length - 1]` becomes
    `List.getLast?`, `arr.splice(i)` becomes `List.take i` / `List.drop i`.
  * JavaScript numbers used as indices become `Int` where the source can
    receive negative values, `Nat` where the value is provably non-negative.
  * Indexing out of range in JavaScript yields `undefined`; reading a
    property of `undefined` throws a `TypeError`.  Functions along whose
    paths that can happen are embedded with an `Option` result where
    `none` models the thrown `TypeError`; `jsIndex` models `arr[i]`
    itself (`none` = `undefined`).
  * Card `id` strings play no role in the game logic and are omitted.
-/

namespace Spider

/-- The four suits, `'♠' | '♥' | '♦' | '♣'` in `types.ts`. -/
inductive Suit where
  | spades | hearts | diamonds | clubs
deriving DecidableEq, Repr

/-- The thirteen ranks of `types.ts`. -/
inductive Rank where
  | ace | two | three | four | five | six | seven
  | eight | nine | ten | jack | queen | king
deriving DecidableEq, Repr

/-- `RANKS` of `types.ts`: the ranks in order Ace .. King. -/
def RANKS : List Rank :=
  [.ace, .two, .three, .four, .five, .six, .seven,
   .eight, .nine, .ten, .jack, .queen, .king]

/-- `RANK_VALUES` of `types.ts`: Ace = 1 .. King = 13. -/
def RANK_VALUES : Rank → Nat
  | .ace => 1 | .two => 2 | .three => 3 | .four => 4 | .five => 5
  | .six => 6 | .seven => 7 | .eight => 8 | .nine => 9 | .ten => 10
  | .jack => 11 | .queen => 12 | .king => 13

/-- A card (`types.ts`); the `id` string is irrelevant to the logic and omitted. -/
structure Card where
  suit : Suit
  rank : Rank
  faceUp : Bool
deriving DecidableEq, Repr

/-- Default card used for `List.getD`; never observed on in-range indices. -/
def cardDefault : Card := ⟨.spades, .ace, false⟩

/-- `GameState` of `types.ts`.  `score` is a JS number that can go negative,
so it is embedded as `Int`; the counters only ever grow, so they are `Nat`. -/
structure GameState where
  columns : List (List Card)
  stock : List (List Card)
  completedRuns : Nat
  score : Int
  moves : Nat
  difficulty : Nat
deriving DecidableEq, Repr

/-- `getRankValue` of `gameLogic.ts`. -/
def getRankValue (rank : Rank) : Nat := RANK_VALUES rank

/-- The condition checked by the loop body of `isValidSequence` for a card
`b` that follows a card `a`: face-up, same suit, rank value exactly one
lower.  The subtraction is done in `Int`, as in JavaScript. -/
def seqStep (a b : Card) : Bool :=
  b.faceUp && (b.suit == a.suit) &&
    ((getRankValue a.rank : Int) - (getRankValue b.rank : Int) == 1)

/-- The tail of `isValidSequence`'s loop: given the previous card, check
each following card with `seqStep`. -/
def validSeqFrom : Card → List Card → Bool
  | _, [] => true
  | prev, c :: rest => seqStep prev c && validSeqFrom c rest

/-- `isValidSequence(cards, startIndex)` of `gameLogic.ts` for a
non-negative start index: every card from `startIndex` on is face-up and
adjacent pairs are same-suit descending by one.  An empty range (start at
or past the end) is vacuously valid, as in the source's `for` loop. -/
def isValidSequence (cards : List Card) (startIndex : Nat) : Bool :=
  match cards.drop startIndex with
  | [] => true
  | c :: rest => c.faceUp && validSeqFrom c rest

/-- `isValidSequence` with a JavaScript `number` start index: a negative
start index makes the loop body read `cards[startIndex].faceUp` with
`cards[startIndex] = undefined`, throwing a `TypeError` (modelled `none`),
because `startIndex < cards.length` always holds for negative values. -/
def isValidSequenceJS (cards : List Card) (startIndex : Int) : Option Bool :=
  if startIndex < 0 then none
  else some (isValidSequence cards startIndex.toNat)

/-- `canMoveCards(sourceCol, startIndex, targetCol)` of `gameLogic.ts`,
on actual columns (the in-range-column-index case). -/
def canMoveCards (sourceCol : List Card) (startIndex : Int)
    (targetCol : List Card) : Bool :=
  if startIndex < 0 || (sourceCol.length : Int) ≤ startIndex then false
  else if !isValidSequence sourceCol startIndex.toNat then false
  else
    match targetCol.getLast? with
    | none => true
    | some targetTopCard =>
      let movingBottomCard := sourceCol.getD startIndex.toNat cardDefault
      if !targetTopCard.faceUp then false
      else (getRankValue targetTopCard.rank : Int) -
             (getRankValue movingBottomCard.rank : Int) == 1

/-- JavaScript array indexing `l[i]`: `none` models `undefined`. -/
def jsIndex (l : List α) (i : Int) : Option α :=
  if i < 0 then none else l.get? i.toNat

/-- `canMoveCards` as called from `moveCards`, where a column argument may
be `undefined` (out-of-range column index).  `none` models the `TypeError`
thrown by reading `.length` of `undefined`; note the short-circuit
`startIndex < 0 ||` returns `false` before touching `sourceCol`. -/
def canMoveCardsJS (sourceCol : Option (List Card)) (startIndex : Int)
    (targetCol : Option (List Card)) : Option Bool :=
  if startIndex < 0 then some false
  else
    match sourceCol with
    | none => none
    | some src =>
      if (src.length : Int) ≤ startIndex then some false
      else if !isValidSequence src startIndex.toNat then some false
      else
        match targetCol with
        | none => none
        | some tgt =>
          match tgt.getLast? with
          | none => some true
          | some targetTopCard =>
            let movingBottomCard := src.getD startIndex.toNat cardDefault
            if !targetTopCard.faceUp then some false
            else some ((getRankValue targetTopCard.rank : Int) -
                         (getRankValue movingBottomCard.rank : Int) == 1)

/-- The result record of `checkCompleteRun`. -/
structure RunResult where
  found : Bool
  startIndex : Int
deriving DecidableEq, Repr

/-- `checkCompleteRun(column)` of `gameLogic.ts`: detects a same-suit
King-to-Ace run occupying the last 13 positions of the column. -/
def checkCompleteRun (column : List Card) : RunResult :=
  if column.length < 13 then ⟨false, -1⟩
  else
    let startIndex := column.length - 13
    let bottomCard := column.getD (column.length - 1) cardDefault
    if getRankValue bottomCard.rank ≠ 1 then ⟨false, -1⟩
    else
      let topCard := column.getD startIndex cardDefault
      if getRankValue topCard.rank ≠ 13 then ⟨false, -1⟩
      else if !isValidSequence column startIndex then ⟨false, -1⟩
      else if (column.drop startIndex).all (fun c => c.suit == bottomCard.suit) then
        ⟨true, (startIndex : Int)⟩
      else ⟨false, -1⟩

/-- The "flip the new top card if it is face-down" step shared by
`moveCards`, `removeCompleteRuns` and nothing else. -/
def flipTop (col : List Card) : List Card :=
  match col.getLast? with
  | none => col
  | some topCard =>
    if topCard.faceUp then col
    else col.dropLast ++ [{ topCard with faceUp := true }]

/-- One column's step of the loop of `removeCompleteRuns`: splice off a
detected run, count it, and flip the new top card. -/
def removeRunFromColumn (col : List Card) : List Card × Nat :=
  if (checkCompleteRun col).found then
    (flipTop (col.take (col.length - 13)), 1)
  else (col, 0)

/-- `removeCompleteRuns(state)` of `gameLogic.ts`: one pass over the ten
columns; each detected run is removed (its 13 cards spliced off),
`completedRuns` gains 1 and `score` gains 100 per removal. -/
def removeCompleteRuns (state : GameState) : GameState :=
  let processed := state.columns.map removeRunFromColumn
  let removed := (processed.map Prod.snd).sum
  { state with
    columns := processed.map Prod.fst
    completedRuns := state.completedRuns + removed
    score := state.score + 100 * removed }

/-- The state-building part of `moveCards` once the move is accepted
(both column indices in range, `0 ≤ startIndex < sourceCol.length`,
source ≠ target): splice the moving cards out of the source, append them
to the target, flip the source's new top card, count the move, charge one
point. -/
def applyMove (state : GameState) (sourceColIdx startIndex targetColIdx : Nat) :
    GameState :=
  let sourceCol := state.columns.getD sourceColIdx []
  let movingCards := sourceCol.drop startIndex
  let cols1 := state.columns.set sourceColIdx (flipTop (sourceCol.take startIndex))
  let cols2 := cols1.set targetColIdx (cols1.getD targetColIdx [] ++ movingCards)
  { state with
    columns := cols2
    moves := state.moves + 1
    score := state.score - 1 }

/-- `moveCards(state, sourceColIdx, startIndex, targetColIdx)` of
`gameLogic.ts`, with JavaScript `number` arguments.  `none` models the
`TypeError` thrown when an out-of-range column index makes
`canMoveCards` read a property of `undefined`. -/
def moveCardsJS (state : GameState)
    (sourceColIdx startIndex targetColIdx : Int) : Option GameState :=
  if sourceColIdx = targetColIdx then some state
  else
    match canMoveCardsJS (jsIndex state.columns sourceColIdx) startIndex
        (jsIndex state.columns targetColIdx) with
    | none => none
    | some false => some state
    | some true =>
      some (removeCompleteRuns
        (applyMove state sourceColIdx.toNat startIndex.toNat targetColIdx.toNat))

/-- `dealFromStock(state)` of `gameLogic.ts`: `none` models the source's
`null` return (empty stock, or some column empty); otherwise the last
stock pile is popped and its card at index `i` is appended face-up to
column `i`. -/
def dealFromStock (state : GameState) : Option GameState :=
  if state.stock.isEmpty then none
  else if state.columns.any (fun col => col.isEmpty) then none
  else
    match state.stock.getLast? with
    | none => none
    | some dealPile =>
      let newColumns := state.columns.mapIdx (fun idx col =>
        match dealPile.get? idx with
        | some c => col ++ [{ c with faceUp := true }]
        | none => col)
      some (removeCompleteRuns
        { state with
          columns := newColumns
          stock := state.stock.dropLast
          moves := state.moves + 1 })

/-- `isGameWon(state)` of `gameLogic.ts`. -/
def isGameWon (state : GameState) : Bool :=
  state.completedRuns == 8

/-- `createDeck(suits)` of `gameLogic.ts`: one face-down card per suit and
rank, suits outermost (ids omitted). -/
def createDeck (suits : List Suit) : List Card :=
  suits.flatMap (fun suit => RANKS.map (fun rank => ⟨suit, rank, false⟩))

/-- The suit set chosen by `createGame` for a difficulty (1, 2, or
anything else = 4 suits, as in the source's `if`/`else`). -/
def suitsFor (difficulty : Nat) : List Suit :=
  if difficulty = 1 then [.spades]
  else if difficulty = 2 then [.spades, .hearts]
  else [.spades, .hearts, .diamonds, .clubs]

/-- The unshuffled 104-card pack built by `createGame`:
`repeats = Math.floor(8 / suits.length)` concatenated copies of the deck. -/
def packCards (difficulty : Nat) : List Card :=
  let suits := suitsFor difficulty
  (List.range (8 / suits.length)).flatMap (fun _ => createDeck suits)

/-- The per-column deal sizes of `createGame`: the first 4 columns get 6
cards, the remaining 6 get 5. -/
def columnSizes : List Nat := [6, 6, 6, 6, 5, 5, 5, 5, 5, 5]

/-- Set the last-dealt card of a freshly dealt column face-up
(`if (row === numCards - 1) card.faceUp = true` in `createGame`). -/
def markTopFaceUp (col : List Card) : List Card :=
  match col.getLast? with
  | none => []
  | some c => col.dropLast ++ [{ c with faceUp := true }]

/-- The column-dealing loop of `createGame`: consume `sizes` many cards
per column from the shuffled pack, in order. -/
def dealCols : List Nat → List Card → List (List Card)
  | [], _ => []
  | n :: rest, cards => markTopFaceUp (cards.take n) :: dealCols rest (cards.drop n)

/-- Structural worker for `chunks10`; the fuel is an upper bound on the
number of cards, so the recursion is structural (and hence computable by
the kernel). -/
def chunksAux : Nat → List Card → List (List Card)
  | 0, _ => []
  | _, [] => []
  | fuel + 1, c :: rest => ((c :: rest).take 10) :: chunksAux fuel ((c :: rest).drop 10)

/-- The stock-building `while` loop of `createGame`: split the remaining
cards into piles of (up to) 10. -/
def chunks10 (cards : List Card) : List (List Card) :=
  chunksAux cards.length cards

/-- `createGame(difficulty)` of `gameLogic.ts`, with the outcome of the
random Fisher-Yates shuffle passed in as `shuffled` (any permutation of
`packCards difficulty`): deal 54 cards into 10 columns, the remaining 50
into stock piles of 10. -/
def createGame (difficulty : Nat) (shuffled : List Card) : GameState :=
  { columns := dealCols columnSizes shuffled
    stock := chunks10 (shuffled.drop 54)
    completedRuns := 0
    score := 500
    moves := 0
    difficulty := difficulty }

/-- The observable outcome of `findHint` in `App.tsx`: which move is
highlighted (with its tier), or the deal / no-moves message. -/
inductive Hint where
  | move (srcCol cardIdx tgtCol : Nat) (sameSuit : Bool)
  | dealHint
  | noMoves
deriving DecidableEq, Repr

/-- The first (same-suit) loop nest of `findHint` in `App.tsx`, returning
the `(srcCol, cardIdx, tgtCol)` it would highlight.  The loops are
embedded with `List.findSome?`; each `continue` is a `none`. -/
def findHintTier1 (state : GameState) : Option (Nat × Nat × Nat) :=
  (List.range state.columns.length).findSome? fun srcCol =>
    let col := state.columns.getD srcCol []
    (List.range col.length).findSome? fun cardIdx =>
      if !(col.getD cardIdx cardDefault).faceUp then none
      else if !isValidSequence col cardIdx then none
      else (List.range state.columns.length).findSome? fun tgtCol =>
        if tgtCol = srcCol then none
        else if (state.columns.getD tgtCol []).isEmpty then none
        else if canMoveCards col (cardIdx : Int) (state.columns.getD tgtCol []) then
          let tgtTop := (state.columns.getD tgtCol []).getLastD cardDefault
          if tgtTop.suit == (col.getD cardIdx cardDefault).suit then
            some (srcCol, cardIdx, tgtCol)
          else none
        else none

/-- The second (any-move) loop nest of `findHint` in `App.tsx`; note the
source checks `canMoveCards` before the non-empty-target test here. -/
def findHintTier2 (state : GameState) : Option (Nat × Nat × Nat) :=
  (List.range state.columns.length).findSome? fun srcCol =>
    let col := state.columns.getD srcCol []
    (List.range col.length).findSome? fun cardIdx =>
      if !(col.getD cardIdx cardDefault).faceUp then none
      else if !isValidSequence col cardIdx then none
      else (List.range state.columns.length).findSome? fun tgtCol =>
        if tgtCol = srcCol then none
        else if canMoveCards col (cardIdx : Int) (state.columns.getD tgtCol []) then
          if 0 < (state.columns.getD tgtCol []).length then
            some (srcCol, cardIdx, tgtCol)
          else none
        else none

/-- `findHint` of `App.tsx`: tier 1 (same-suit target) first, then tier 2
(any non-empty target), else suggest dealing when stock remains. -/
def findHint (state : GameState) : Hint :=
  match findHintTier1 state with
  | some (s, c, t) => .move s c t true
  | none =>
    match findHintTier2 state with
    | some (s, c, t) => .move s c t false
    | none => if 0 < state.stock.length then .dealHint else .noMoves

/-- Modelled from the spec (§4.7): the `(sourceColumn, cardIndex,
targetColumn)` triples in source-column-ascending, then
card-index-ascending, then target-column-ascending order. -/
def hintCandidates (state : GameState) : List (Nat × Nat × Nat) :=
  (List.range state.columns.length).flatMap fun srcCol =>
    (List.range (state.columns.getD srcCol []).length).flatMap fun cardIdx =>
      (List.range state.columns.length).map fun tgtCol => (srcCol, cardIdx, tgtCol)

/-- Modelled from the spec (§4.7): a candidate triple that the hint
search may return — the card is face-up and starts a valid sequence, the
target is a different, non-empty column, and the move is legal. -/
def legalHintMove (state : GameState) : Nat × Nat × Nat → Bool
  | (srcCol, cardIdx, tgtCol) =>
    let col := state.columns.getD srcCol []
    let tgt := state.columns.getD tgtCol []
    (col.getD cardIdx cardDefault).faceUp && isValidSequence col cardIdx &&
      decide (tgtCol ≠ srcCol) && !tgt.isEmpty &&
      canMoveCards col (cardIdx : Int) tgt

/-- Modelled from the spec (§4.7): tier-1 preference — the target's top
card has the same suit as the moving sequence's first card. -/
def suitMatch (state : GameState) : Nat × Nat × Nat → Bool
  | (srcCol, cardIdx, tgtCol) =>
    ((state.columns.getD tgtCol []).getLastD cardDefault).suit ==
      ((state.columns.getD srcCol []).getD cardIdx cardDefault).suit

/-- Modelled from the spec (§4.7): the first legal same-suit-target move
in search order. -/
def hintSpecTier1 (state : GameState) : Option (Nat × Nat × Nat) :=
  ((hintCandidates state).filter
    (fun m => legalHintMove state m && suitMatch state m)).head?

/-- Modelled from the spec (§4.7): the first legal move to a non-empty
target in search order. -/
def hintSpecTier2 (state : GameState) : Option (Nat × Nat × Nat) :=
  ((hintCandidates state).filter (legalHintMove state)).head?

/-- Modelled from the spec (§4.2–§4.3): the legality condition for
`canMoveCards(source, i, target)` as the spec states it — `i` in range;
every card from `i` to the end face-up; each adjacent pair in that range
same-suit with rank value decreasing by exactly one; and the target
either empty or topped by a face-up card whose rank value is exactly one
greater than that of the card at index `i` (its suit unconstrained). -/
def CanMoveSpec (source : List Card) (i : Int) (target : List Card) : Prop :=
  (0 ≤ i ∧ i < (source.length : Int)) ∧
  (∀ j : Nat, i.toNat ≤ j → j < source.length →
    (source.getD j cardDefault).faceUp = true) ∧
  (∀ j : Nat, i.toNat ≤ j → j + 1 < source.length →
    (source.getD (j + 1) cardDefault).suit = (source.getD j cardDefault).suit ∧
    (getRankValue (source.getD j cardDefault).rank : Int) -
      (getRankValue (source.getD (j + 1) cardDefault).rank : Int) = 1) ∧
  (target = [] ∨
    ∃ top, target.getLast? = some top ∧ top.faceUp = true ∧
      (getRankValue top.rank : Int) =
        (getRankValue (source.getD i.toNat cardDefault).rank : Int) + 1)

/-- Modelled from the spec (§4.4, glossary "Run"/"Sequence"): a 13-card
window that is a complete run — thirteen face-up cards of one suit whose
rank values descend from King (13) at the window's start to Ace (1) at
its end with no gaps. -/
def RunWindow (w : List Card) : Prop :=
  w.length = 13 ∧
  (∀ k, k < 13 → (w.getD k cardDefault).faceUp = true) ∧
  (∀ k, k < 13 → (w.getD k cardDefault).suit = (w.getD 0 cardDefault).suit) ∧
  (∀ k, k < 13 → getRankValue (w.getD k cardDefault).rank = 13 - k)

/-- Modelled from the spec (§4.4): a column holds a complete run when its
final 13 cards, as a contiguous block ending at the top, form a
`RunWindow` (the column must have at least 13 cards). -/
def SpecCompleteRun (column : List Card) : Prop :=
  13 ≤ column.length ∧ RunWindow (column.drop (column.length - 13))

/-- A complete run sitting at offset `p` of a column (not necessarily at
the top); used for the no-complete-run-left invariant. -/
def HasRunAt (column : List Card) (p : Nat) : Prop :=
  RunWindow ((column.drop p).take 13)

/-- A column holding no complete run anywhere. -/
def NoRun (column : List Card) : Prop :=
  ∀ p, ¬ HasRunAt column p

/-- Total number of cards lying in the columns. -/
def colCount (s : GameState) : Nat := (s.columns.map List.length).sum

/-- Total number of cards waiting in the stock. -/
def stockCount (s : GameState) : Nat := (s.stock.map List.length).sum

/-- The conserved quantity of the card-count invariant: cards in columns
plus cards in stock plus 13 per completed (removed) run. -/
def cardCount (s : GameState) : Nat :=
  colCount s + stockCount s + 13 * s.completedRuns

/-- Face-up contiguity of a column, bottom to top: once a card is
face-up, every card above it is face-up. -/
def faceUpContig : List Card → Bool
  | [] => true
  | c :: rest => if c.faceUp then rest.all (fun x => x.faceUp) else faceUpContig rest

/-- A concrete complete run (King to Ace of spades, face-up), used to
instantiate theorems at a concrete input. -/
def exampleRunColumn : List Card :=
  [⟨.spades, .king, true⟩, ⟨.spades, .queen, true⟩, ⟨.spades, .jack, true⟩,
   ⟨.spades, .ten, true⟩, ⟨.spades, .nine, true⟩, ⟨.spades, .eight, true⟩,
   ⟨.spades, .seven, true⟩, ⟨.spades, .six, true⟩, ⟨.spades, .five, true⟩,
   ⟨.spades, .four, true⟩, ⟨.spades, .three, true⟩, ⟨.spades, .two, true⟩,
   ⟨.spades, .ace, true⟩]

/-- The inductive invariant carried along reachability: ten columns,
ten-card stock piles, the 104-card count, face-up contiguity of every
column, and no complete run left anywhere in any column. -/
def Inv (s : GameState) : Prop :=
  s.columns.length = 10 ∧
  (∀ pile ∈ s.stock, pile.length = 10) ∧
  cardCount s = 104 ∧
  (∀ col ∈ s.columns, faceUpContig col = true) ∧
  (∀ col ∈ s.columns, NoRun col)

/-- The states reachable from a fresh game by the engine's two
state-transforming operations.  The shuffle outcome is any permutation of
the constructed pack. -/
inductive Reachable : GameState → Prop where
  | init (difficulty : Nat) (shuffled : List Card)
      (hperm : shuffled.Perm (packCards difficulty)) :
      Reachable (createGame difficulty shuffled)
  | move (s : GameState) (src i tgt : Int) (s' : GameState)
      (hs : Reachable s) (hstep : moveCardsJS s src i tgt = some s') :
      Reachable s'
  | deal (s : GameState) (s' : GameState)
      (hs : Reachable s) (hstep : dealFromStock s = some s') :
      Reachable s'

/-! ### Basic facts about ranks and sequences -/

theorem getRankValue_pos (r : Rank) : 1 ≤ getRankValue r := by
  cases r <;> simp [getRankValue, RANK_VALUES]

theorem getRankValue_le (r : Rank) : getRankValue r ≤ 13 := by
  cases r <;> simp [getRankValue, RANK_VALUES]

theorem validSeqFrom_faceUp {c : Card} {rest : List Card}
    (h : validSeqFrom c rest = true) : ∀ x ∈ rest, x.faceUp = true := by
  induction rest generalizing c with
  | nil => intro x hx; cases hx
  | cons b rest ih =>
    simp only [validSeqFrom, Bool.and_eq_true] at h
    intro x hx
    rcases List.mem_cons.mp hx with rfl | hx
    · have := h.1
      simp only [seqStep, Bool.and_eq_true] at this
      exact this.1.1
    · exact ih h.2 x hx

theorem isValidSequence_faceUp {cards : List Card} {s : Nat}
    (h : isValidSequence cards s = true) : ∀ x ∈ cards.drop s, x.faceUp = true := by
  unfold isValidSequence at h
  intro x hx
  rcases hdrop : cards.drop s with _ | ⟨c, rest⟩
  · rw [hdrop] at hx; cases hx
  · rw [hdrop] at h hx
    simp only [Bool.and_eq_true] at h
    rcases List.mem_cons.mp hx with rfl | hx
    · exact h.1
    · exact validSeqFrom_faceUp h.2 x hx

theorem validSeqFrom_iff (c : Card) (rest : List Card) :
    validSeqFrom c rest = true ↔
      ∀ k, k + 1 < rest.length + 1 →
        seqStep ((c :: rest).getD k cardDefault)
          ((c :: rest).getD (k + 1) cardDefault) = true := by
  induction rest generalizing c with
  | nil => simp [validSeqFrom]
  | cons b rest ih =>
    simp only [validSeqFrom, Bool.and_eq_true]
    constructor
    · rintro ⟨hstep, htail⟩ k hk
      match k with
      | 0 => simpa using hstep
      | k + 1 =>
        have hlen : k + 1 < rest.length + 1 := by
          simpa using Nat.lt_of_succ_lt_succ hk
        simpa using (ih b).mp htail k hlen
    · intro h
      refine ⟨by simpa using h 0 (by simp), (ih b).mpr ?_⟩
      intro k hk
      simpa using h (k + 1) (by simpa using Nat.succ_lt_succ hk)

/-- `isValidSequence` looks only at the suffix from the start index. -/
theorem isValidSequence_drop (cards : List Card) (s : Nat) :
    isValidSequence cards s = isValidSequence (cards.drop s) 0 := by
  unfold isValidSequence
  rw [List.drop_zero]

/-- Index-wise characterisation of a valid window: every card face-up
and every adjacent pair a `seqStep`. -/
theorem valid_window_iff (w : List Card) :
    isValidSequence w 0 = true ↔
      (∀ k, k < w.length → (w.getD k cardDefault).faceUp = true) ∧
      (∀ k, k + 1 < w.length →
        seqStep (w.getD k cardDefault) (w.getD (k + 1) cardDefault) = true) := by
  unfold isValidSequence
  rw [List.drop_zero]
  match w with
  | [] => simp
  | c :: rest =>
    simp only [Bool.and_eq_true, validSeqFrom_iff, List.length_cons]
    constructor
    · rintro ⟨hc, hsteps⟩
      refine ⟨?_, hsteps⟩
      intro k hk
      match k with
      | 0 => simpa using hc
      | k + 1 =>
        have hstep := hsteps k (by omega)
        simp only [seqStep, Bool.and_eq_true] at hstep
        exact hstep.1.1
    · rintro ⟨hface, hsteps⟩
      exact ⟨by simpa using hface 0 (by omega), hsteps⟩

/-- `getD` of a dropped list, re-indexed on the original list. -/
theorem getD_drop (l : List Card) (s k : Nat) :
    (l.drop s).getD k cardDefault = l.getD (s + k) cardDefault := by
  simp [List.getD_eq_getElem?_getD, List.getElem?_drop]

/-- In-range `getD` values are members of the list. -/
theorem getD_mem {α : Type} {l : List α} {k : Nat} {d : α} (hk : k < l.length) :
    l.getD k d ∈ l := by
  rw [List.getD_eq_getElem?_getD, List.getElem?_eq_getElem hk]
  exact List.getElem_mem hk

/-- Index-wise characterisation of `isValidSequence` on the original
list, for an in-range start index. -/
theorem isValidSequence_iff_indexed (source : List Card) (s : Nat)
    (hs : s < source.length) :
    isValidSequence source s = true ↔
      (∀ j, s ≤ j → j < source.length →
        (source.getD j cardDefault).faceUp = true) ∧
      (∀ j, s ≤ j → j + 1 < source.length →
        seqStep (source.getD j cardDefault) (source.getD (j + 1) cardDefault)
          = true) := by
  rw [isValidSequence_drop, valid_window_iff]
  constructor
  · rintro ⟨hf, hp⟩
    constructor
    · intro j hj hjlen
      have := hf (j - s) (by rw [List.length_drop]; omega)
      rwa [getD_drop, Nat.add_sub_cancel' hj] at this
    · intro j hj hjlen
      have := hp (j - s) (by rw [List.length_drop]; omega)
      rw [getD_drop, getD_drop] at this
      have e1 : s + (j - s) = j := by omega
      have e2 : s + (j - s + 1) = j + 1 := by omega
      rwa [e1, e2] at this
  · rintro ⟨hf, hp⟩
    constructor
    · intro k hk
      rw [List.length_drop] at hk
      rw [getD_drop]
      exact hf (s + k) (by omega) (by omega)
    · intro k hk
      rw [List.length_drop] at hk
      rw [getD_drop, getD_drop]
      have e : s + (k + 1) = s + k + 1 := by omega
      rw [e]
      exact hp (s + k) (by omega) (by omega)

/-- The target check in `canMoveCards` (an empty target is always legal,
otherwise its top card must be face-up and exactly one rank higher). -/
theorem canMoveCards_eq_true_iff_aux (source : List Card) (i : Int)
    (target : List Card) (h0 : 0 ≤ i) (hlen : i < (source.length : Int)) :
    canMoveCards source i target = true ↔
      isValidSequence source i.toNat = true ∧
      (target = [] ∨
        ∃ top, target.getLast? = some top ∧ top.faceUp = true ∧
          (getRankValue top.rank : Int) =
            (getRankValue (source.getD i.toNat cardDefault).rank : Int) + 1) := by
  unfold canMoveCards
  have hcond : (decide (i < 0) || decide ((source.length : Int) ≤ i)) = false := by
    simp only [Bool.or_eq_false_iff, decide_eq_false_iff_not]
    omega
  rw [hcond]
  simp only [Bool.false_eq_true, if_false]
  by_cases hvs : isValidSequence source i.toNat
  · simp only [hvs, Bool.not_true, Bool.false_eq_true, if_false, true_and]
    rcases hlast : target.getLast? with _ | top
    · have : target = [] := List.getLast?_eq_none.mp hlast
      simp [this]
    · have htgt : target ≠ [] := by
        intro h; rw [h] at hlast; simp at hlast
      by_cases hface : top.faceUp
      · simp only [hface, Bool.not_true, Bool.false_eq_true, if_false, htgt,
          false_or]
        constructor
        · intro h
          refine ⟨top, rfl, hface, ?_⟩
          have := of_decide_eq_true h
          omega
        · rintro ⟨top', htop', hface', hrank⟩
          injection htop' with htop'
          subst htop'
          exact decide_eq_true (by omega)
      · simp only [Bool.not_eq_true'] at hface
        simp only [hface, Bool.not_false, if_true, htgt, false_or]
        constructor
        · intro h; cases h
        · rintro ⟨top', htop', hface', hrank⟩
          injection htop' with htop'
          subst htop'
          exact absurd hface' hface
  · simp only [hvs]
    simp [hvs]

/-- **C2.** `canMoveCards(source, i, target)` returns true iff `i` is in
range, the cards from `i` to the end form a face-up same-suit descending
run, and the target is empty or topped by a face-up card exactly one rank
above the card at `i` (target suit irrelevant). -/
theorem spider_C2_canMoveCards_iff (source : List Card) (i : Int)
    (target : List Card) :
    canMoveCards source i target = true ↔ CanMoveSpec source i target := by
  by_cases hrange : 0 ≤ i ∧ i < (source.length : Int)
  · obtain ⟨h0, hlen⟩ := hrange
    have hs : i.toNat < source.length := by omega
    rw [canMoveCards_eq_true_iff_aux source i target h0 hlen]
    unfold CanMoveSpec
    rw [isValidSequence_iff_indexed source i.toNat hs]
    constructor
    · rintro ⟨⟨hf, hp⟩, htgt⟩
      refine ⟨⟨h0, hlen⟩, hf, ?_, htgt⟩
      intro j hj hjlen
      have := hp j hj hjlen
      simp only [seqStep, Bool.and_eq_true, beq_iff_eq] at this
      exact ⟨this.1.2, by omega⟩
    · rintro ⟨_, hf, hp, htgt⟩
      refine ⟨⟨hf, ?_⟩, htgt⟩
      intro j hj hjlen
      have hpair := hp j hj hjlen
      have hfj := hf (j + 1) (by omega) hjlen
      simp only [seqStep, Bool.and_eq_true, beq_iff_eq]
      exact ⟨⟨hfj, hpair.1⟩, by omega⟩
  · unfold canMoveCards CanMoveSpec
    have hcond : (decide (i < 0) || decide ((source.length : Int) ≤ i)) = true := by
      simp only [Bool.or_eq_true, decide_eq_true_eq]
      omega
    rw [hcond]
    simp only [if_true, Bool.false_eq_true, false_iff]
    rintro ⟨⟨h0, hlen⟩, _⟩
    exact hrange ⟨h0, hlen⟩

/-! ### Safety of the index checks (claim C6) -/

/-- On actual (in-range) columns, the `Option`-level `canMoveCards` never
throws: it computes exactly the total function `canMoveCards`. -/
theorem canMoveCardsJS_some_some (src : List Card) (i : Int) (tgt : List Card) :
    canMoveCardsJS (some src) i (some tgt) = some (canMoveCards src i tgt) := by
  unfold canMoveCardsJS canMoveCards
  by_cases h0 : i < 0
  · have hcond : (decide (i < 0) || decide ((src.length : Int) ≤ i)) = true := by
      simp [h0]
    rw [hcond]
    simp [h0]
  · have hnot : ¬i < 0 := h0
    simp only [if_neg hnot]
    by_cases hlen : (src.length : Int) ≤ i
    · have hcond : (decide (i < 0) || decide ((src.length : Int) ≤ i)) = true := by
        simp [hlen]
      rw [hcond]
      simp [hlen]
    · have hcond : (decide (i < 0) || decide ((src.length : Int) ≤ i)) = false := by
        simp only [Bool.or_eq_false_iff, decide_eq_false_iff_not]
        exact ⟨hnot, hlen⟩
      rw [hcond]
      simp only [Bool.false_eq_true, if_false, if_neg hlen]
      by_cases hvs : isValidSequence src i.toNat
      · simp only [hvs, Bool.not_true, Bool.false_eq_true, if_false]
        rcases tgt.getLast? with _ | top
        · rfl
        · by_cases hface : top.faceUp
          · simp [hface]
          · simp only [Bool.not_eq_true'] at hface
            simp [hface]
      · simp only [Bool.not_eq_true] at hvs
        simp [hvs]

/-- **C6, counterexample.**  The claim says out-of-range column indices
are rejected with the state returned unchanged; in fact
`moveCards(state, 10, 0, 0)` on a fresh ten-column game reads
`state.columns[10].length` with `state.columns[10] = undefined` and
throws a `TypeError` (modelled by `none`) instead of returning the state. -/
theorem spider_C6_counterexample :
    moveCardsJS (createGame 1 (packCards 1)) 10 0 0 = none ∧
      (createGame 1 (packCards 1)).columns.length = 10 := by
  constructor <;> rfl

/-- **C6, amended.**  With both column indices in range, the engine never
crashes: `moveCards` always returns a state, out-of-range start indices
make `canMoveCards` return false and `moveCards` return the unchanged
state, and `canMoveCards` itself is total on actual columns.  (For
out-of-range column indices with a non-negative start index, `moveCards`
throws a `TypeError` instead — see the counterexample.) -/
theorem spider_C6_in_range_no_crash (s : GameState) (src i tgt : Int)
    (srcCol tgtCol : List Card)
    (hsrc : jsIndex s.columns src = some srcCol)
    (htgt : jsIndex s.columns tgt = some tgtCol) :
    (∃ s', moveCardsJS s src i tgt = some s') ∧
    ((i < 0 ∨ (srcCol.length : Int) ≤ i) →
      canMoveCards srcCol i tgtCol = false ∧
        moveCardsJS s src i tgt = some s) := by
  have hrej : (i < 0 ∨ (srcCol.length : Int) ≤ i) →
      canMoveCards srcCol i tgtCol = false := by
    intro hout
    unfold canMoveCards
    have hcond : (decide (i < 0) || decide ((srcCol.length : Int) ≤ i)) = true := by
      rcases hout with h | h <;> simp [h]
    rw [hcond]
    rfl
  unfold moveCardsJS
  by_cases heq : src = tgt
  · simp only [heq, if_true]
    exact ⟨⟨s, rfl⟩, fun hout => ⟨hrej hout, by trivial⟩⟩
  · simp only [if_neg heq, hsrc, htgt, canMoveCardsJS_some_some]
    constructor
    · rcases hcm : canMoveCards srcCol i tgtCol with _ | _
      · exact ⟨s, rfl⟩
      · exact ⟨_, rfl⟩
    · intro hout
      refine ⟨hrej hout, ?_⟩
      rw [hrej hout]

/-! ### Complete-run detection (claims C5, C10) -/

theorem all_iff_getD {l : List Card} {p : Card → Bool} :
    l.all p = true ↔ ∀ k, k < l.length → p (l.getD k cardDefault) = true := by
  rw [List.all_eq_true]
  constructor
  · intro h k hk
    exact h _ (getD_mem hk)
  · intro h x hx
    obtain ⟨k, hk, rfl⟩ := List.mem_iff_getElem.mp hx
    have := h k hk
    rwa [List.getD_eq_getElem?_getD, List.getElem?_eq_getElem hk] at this

/-- `checkCompleteRun` unfolded: for a column of at least 13 cards it
reports a run exactly when the four checks of the source pass. -/
theorem checkCompleteRun_found_four (column : List Card)
    (h13 : 13 ≤ column.length) :
    (checkCompleteRun column).found = true ↔
      (getRankValue (column.getD (column.length - 1) cardDefault).rank = 1 ∧
       getRankValue (column.getD (column.length - 13) cardDefault).rank = 13 ∧
       isValidSequence column (column.length - 13) = true ∧
       (column.drop (column.length - 13)).all
         (fun c => c.suit ==
           (column.getD (column.length - 1) cardDefault).suit) = true) := by
  unfold checkCompleteRun
  rw [if_neg (Nat.not_lt.mpr h13)]
  dsimp only
  split_ifs with h1 h2 h3 h4 <;>
    simp_all

/-- When a run is found, `checkCompleteRun` reports the start offset
`column.length - 13`. -/
theorem checkCompleteRun_found_eq (column : List Card)
    (h : (checkCompleteRun column).found = true) :
    checkCompleteRun column =
      ⟨true, (column.length : Int) - 13⟩ := by
  have h13 : 13 ≤ column.length := by
    by_contra hlt
    rw [Nat.not_le] at hlt
    unfold checkCompleteRun at h
    rw [if_pos hlt] at h
    cases h
  have hcast : ((column.length - 13 : Nat) : Int) = (column.length : Int) - 13 := by
    omega
  unfold checkCompleteRun at h ⊢
  rw [if_neg (Nat.not_lt.mpr h13)] at h ⊢
  dsimp only at h ⊢
  split_ifs at h ⊢ <;> simp_all

/-- The run found by `checkCompleteRun` is exactly a `RunWindow` at the
top 13 positions. -/
theorem checkCompleteRun_found_iff (column : List Card) :
    (checkCompleteRun column).found = true ↔
      13 ≤ column.length ∧ RunWindow (column.drop (column.length - 13)) := by
  by_cases h13 : 13 ≤ column.length
  swap
  · rw [Nat.not_le] at h13
    unfold checkCompleteRun
    rw [if_pos h13]
    simp only [Bool.false_eq_true, false_iff]
    rintro ⟨h, _⟩
    omega
  · set s := column.length - 13 with hs
    set w := column.drop s with hw
    have hwlen : w.length = 13 := by
      rw [hw, List.length_drop]; omega
    have hbot : column.getD (column.length - 1) cardDefault =
        w.getD 12 cardDefault := by
      rw [hw, getD_drop]
      congr 1
      omega
    have htop : column.getD s cardDefault = w.getD 0 cardDefault := by
      rw [hw, getD_drop, Nat.add_zero]
    rw [checkCompleteRun_found_four column h13]
    rw [isValidSequence_drop, ← hw, ← hs, hbot, htop]
    rw [valid_window_iff, all_iff_getD]
    unfold RunWindow
    rw [hwlen]
    constructor
    · rintro ⟨hr1, hr13, ⟨hface, hstep⟩, hsuit⟩
      refine ⟨h13, rfl, hface, ?_, ?_⟩
      · intro k hk
        have hk' := hsuit k (by omega)
        have h0' := hsuit 0 (by omega)
        simp only [beq_iff_eq] at hk' h0'
        rw [hk', h0']
      · intro k hk
        induction k with
        | zero => simpa using hr13
        | succ k ih =>
          have hstepk := hstep k (by omega)
          simp only [seqStep, Bool.and_eq_true, beq_iff_eq] at hstepk
          have hk13 : k < 13 := by omega
          have hk' := ih (by omega)
          have h1 := getRankValue_pos ((w.getD (k + 1) cardDefault).rank)
          omega
    · rintro ⟨_, _, hface, hsuit, hrank⟩
      have hr12 := hrank 12 (by omega)
      have hr0 := hrank 0 (by omega)
      refine ⟨by simpa using hr12, by simpa using hr0, ⟨hface, ?_⟩, ?_⟩
      · intro k hk
        have hfk := hface (k + 1) (by omega)
        have hsk := hsuit k (by omega)
        have hsk1 := hsuit (k + 1) (by omega)
        have hrk := hrank k (by omega)
        have hrk1 := hrank (k + 1) (by omega)
        simp only [seqStep, Bool.and_eq_true, beq_iff_eq]
        refine ⟨⟨hfk, by rw [hsk, hsk1]⟩, ?_⟩
        omega
      · intro k hk
        have hsk := hsuit k (by omega)
        have hs12 := hsuit 12 (by omega)
        simp only [beq_iff_eq]
        rw [hsk, hs12]

/-- **C5.** `checkCompleteRun(column)` reports `found = true` with start
offset `column.length - 13` exactly when the column has at least 13
cards whose final 13, as a contiguous block ending at the top, are one
suit and descend from King (13) to Ace (1) with no gaps. -/
theorem spider_C5_checkCompleteRun (column : List Card) :
    ((checkCompleteRun column).found = true ↔ SpecCompleteRun column) ∧
    ((checkCompleteRun column).found = true →
      (checkCompleteRun column).startIndex = (column.length : Int) - 13) := by
  constructor
  · rw [checkCompleteRun_found_iff]
    rfl
  · intro h
    rw [checkCompleteRun_found_eq column h]

/-- Witness for `spider_C6_in_range_no_crash` at a concrete fresh game,
with an out-of-range (negative) start index. -/
theorem spider_C6_in_range_no_crash_witness :
    jsIndex (createGame 1 (packCards 1)).columns 0 =
        some ((createGame 1 (packCards 1)).columns.getD 0 []) ∧
      jsIndex (createGame 1 (packCards 1)).columns 1 =
        some ((createGame 1 (packCards 1)).columns.getD 1 []) ∧
      canMoveCards ((createGame 1 (packCards 1)).columns.getD 0 []) (-2)
          ((createGame 1 (packCards 1)).columns.getD 1 []) = false ∧
      moveCardsJS (createGame 1 (packCards 1)) 0 (-2) 1 =
        some (createGame 1 (packCards 1)) := by
  refine ⟨rfl, rfl, ?_⟩
  have h := spider_C6_in_range_no_crash (createGame 1 (packCards 1)) 0 (-2) 1
    ((createGame 1 (packCards 1)).columns.getD 0 [])
    ((createGame 1 (packCards 1)).columns.getD 1 []) rfl rfl
  exact h.2 (Or.inl (by norm_num))

/-- Witness for `spider_C5_checkCompleteRun`: on a concrete King-to-Ace
spade column the run is found, at start offset 0. -/
theorem spider_C5_checkCompleteRun_witness :
    (checkCompleteRun exampleRunColumn).found = true ∧
      (checkCompleteRun exampleRunColumn).startIndex =
        (exampleRunColumn.length : Int) - 13 := by
  have hf : (checkCompleteRun exampleRunColumn).found = true := by decide
  exact ⟨hf, (spider_C5_checkCompleteRun exampleRunColumn).2 hf⟩

/-! ### Counting and structural lemmas for `removeCompleteRuns` -/

theorem flipTop_length (col : List Card) : (flipTop col).length = col.length := by
  unfold flipTop
  rcases h : col.getLast? with _ | top
  · rfl
  · have hne : col ≠ [] := by
      intro hcol; rw [hcol] at h; cases h
    by_cases hface : top.faceUp
    · simp [hface]
    · simp only [Bool.not_eq_true] at hface
      simp only [hface, Bool.false_eq_true, if_false, List.length_append,
        List.length_dropLast, List.length_cons, List.length_nil]
      have : 0 < col.length := List.length_pos.mpr hne
      omega

theorem checkCompleteRun_found_length {col : List Card}
    (h : (checkCompleteRun col).found = true) : 13 ≤ col.length :=
  ((checkCompleteRun_found_iff col).mp h).1

theorem removeRunFromColumn_length (col : List Card) :
    (removeRunFromColumn col).1.length + 13 * (removeRunFromColumn col).2 =
      col.length := by
  unfold removeRunFromColumn
  by_cases h : (checkCompleteRun col).found = true
  · have h13 := checkCompleteRun_found_length h
    simp only [h, if_true, flipTop_length, List.length_take]
    omega
  · simp only [Bool.not_eq_true] at h
    simp [h]

theorem sum_removeRun (cols : List (List Card)) :
    (((cols.map removeRunFromColumn).map Prod.fst).map List.length).sum +
        13 * ((cols.map removeRunFromColumn).map Prod.snd).sum =
      (cols.map List.length).sum := by
  induction cols with
  | nil => rfl
  | cons col cols ih =>
    simp only [List.map_cons, List.sum_cons]
    have := removeRunFromColumn_length col
    omega

theorem removeCompleteRuns_stock (s : GameState) :
    (removeCompleteRuns s).stock = s.stock := rfl

theorem removeCompleteRuns_moves (s : GameState) :
    (removeCompleteRuns s).moves = s.moves := rfl

theorem removeCompleteRuns_completedRuns (s : GameState) :
    (removeCompleteRuns s).completedRuns =
      s.completedRuns + ((s.columns.map removeRunFromColumn).map Prod.snd).sum :=
  rfl

theorem removeCompleteRuns_score (s : GameState) :
    (removeCompleteRuns s).score =
      s.score + 100 * (((s.columns.map removeRunFromColumn).map Prod.snd).sum : Int) :=
  rfl

/-- Run removal conserves the card count: each removed run trades 13
column cards for one `completedRuns` increment. -/
theorem cardCount_removeCompleteRuns (s : GameState) :
    cardCount (removeCompleteRuns s) = cardCount s := by
  unfold cardCount colCount stockCount
  rw [removeCompleteRuns_stock, removeCompleteRuns_completedRuns]
  show (((s.columns.map removeRunFromColumn).map Prod.fst).map List.length).sum
      + (s.stock.map List.length).sum + 13 * (s.completedRuns + _) = _
  have := sum_removeRun s.columns
  omega

/-- `removeCompleteRuns` adds exactly 100 points per run it removed. -/
theorem removeCompleteRuns_score_per_run (s : GameState) :
    (removeCompleteRuns s).score =
      s.score + 100 *
        (((removeCompleteRuns s).completedRuns - s.completedRuns : Nat) : Int) := by
  rw [removeCompleteRuns_score, removeCompleteRuns_completedRuns]
  congr 2
  omega

/-! ### `moveCards` (claim C1) -/

theorem jsIndex_eq_some {α : Type} {l : List α} {i : Int} {x : α}
    (h : jsIndex l i = some x) : 0 ≤ i ∧ l.get? i.toNat = some x := by
  unfold jsIndex at h
  by_cases h0 : i < 0
  · rw [if_pos h0] at h; cases h
  · rw [if_neg h0] at h
    exact ⟨by omega, h⟩

theorem jsIndex_getD {l : List (List Card)} {i : Int} {x : List Card}
    (h : jsIndex l i = some x) : l.getD i.toNat [] = x := by
  obtain ⟨-, hget⟩ := jsIndex_eq_some h
  rw [List.getD_eq_getD_get?, hget]
  rfl

/-- **C1.** `moveCards` is the identity when source equals target or when
`canMoveCards` rejects; an accepted move detaches the source cards from
index `i` onward, appends them in order to the target, flips the source's
new top card face-up exactly when the source stays non-empty with a
face-down top (`flipTop`), adds one move, subtracts one point, and
finally applies `removeCompleteRuns` — so the returned state has exactly
one more move and score `old - 1 + 100` per run removed in the call. -/
theorem spider_C1_moveCards (s : GameState) (src i tgt : Int) :
    (src = tgt → moveCardsJS s src i tgt = some s) ∧
    (canMoveCardsJS (jsIndex s.columns src) i (jsIndex s.columns tgt) =
        some false →
      moveCardsJS s src i tgt = some s) ∧
    (∀ srcCol tgtCol, src ≠ tgt →
      jsIndex s.columns src = some srcCol →
      jsIndex s.columns tgt = some tgtCol →
      canMoveCards srcCol i tgtCol = true →
      moveCardsJS s src i tgt = some (removeCompleteRuns
        { s with
          columns := (s.columns.set src.toNat
              (flipTop (srcCol.take i.toNat))).set tgt.toNat
              (tgtCol ++ srcCol.drop i.toNat)
          moves := s.moves + 1
          score := s.score - 1 }) ∧
      (∀ s', moveCardsJS s src i tgt = some s' →
        s'.moves = s.moves + 1 ∧
        s'.score = s.score - 1 +
          100 * ((s'.completedRuns - s.completedRuns : Nat) : Int))) := by
  refine ⟨?_, ?_, ?_⟩
  · intro h
    unfold moveCardsJS
    rw [if_pos h]
  · intro h
    unfold moveCardsJS
    by_cases heq : src = tgt
    · rw [if_pos heq]
    · rw [if_neg heq, h]
  · intro srcCol tgtCol hne hsrc htgt hcm
    have hkey : moveCardsJS s src i tgt = some (removeCompleteRuns
        { s with
          columns := (s.columns.set src.toNat
              (flipTop (srcCol.take i.toNat))).set tgt.toNat
              (tgtCol ++ srcCol.drop i.toNat)
          moves := s.moves + 1
          score := s.score - 1 }) := by
      unfold moveCardsJS
      rw [if_neg hne, hsrc, htgt, canMoveCardsJS_some_some, hcm]
      dsimp only
      congr 1
      unfold applyMove
      dsimp only
      have hsrcD : s.columns.getD src.toNat [] = srcCol := jsIndex_getD hsrc
      have h0src : 0 ≤ src := (jsIndex_eq_some hsrc).1
      have h0tgt : 0 ≤ tgt := (jsIndex_eq_some htgt).1
      have hneNat : src.toNat ≠ tgt.toNat := by
        intro h
        apply hne
        omega
      have htgtD : (s.columns.set src.toNat
          (flipTop (srcCol.take i.toNat))).getD tgt.toNat [] = tgtCol := by
        rw [List.getD_eq_getElem?_getD, List.getElem?_set_ne hneNat,
          ← List.getD_eq_getElem?_getD]
        exact jsIndex_getD htgt
      rw [hsrcD, htgtD]
    refine ⟨hkey, ?_⟩
    intro s' hs'
    rw [hkey] at hs'
    injection hs' with hs'
    subst hs'
    constructor
    · rw [removeCompleteRuns_moves]
    · rw [removeCompleteRuns_score_per_run]

/-- Witness for `spider_C1_moveCards`: in the fresh unshuffled 1-suit
game, moving the top card of column 2 (a five) onto the top card of
column 0 (a six) is accepted and produces exactly the described state. -/
theorem spider_C1_moveCards_witness :
    moveCardsJS (createGame 1 (packCards 1)) 2 5 0 =
      some (removeCompleteRuns
        { createGame 1 (packCards 1) with
          columns := (((createGame 1 (packCards 1)).columns.set 2
              (flipTop ((((createGame 1 (packCards 1)).columns.getD 2 [])).take 5))).set 0
              (((createGame 1 (packCards 1)).columns.getD 0 []) ++
                ((createGame 1 (packCards 1)).columns.getD 2 []).drop 5))
          moves := (createGame 1 (packCards 1)).moves + 1
          score := (createGame 1 (packCards 1)).score - 1 }) := by
  exact ((spider_C1_moveCards (createGame 1 (packCards 1)) 2 5 0).2.2
    ((createGame 1 (packCards 1)).columns.getD 2 [])
    ((createGame 1 (packCards 1)).columns.getD 0 [])
    (by decide) rfl rfl (by decide)).1

/-! ### `dealFromStock` (claim C3) -/

/-- **C3.** On a state satisfying the construction invariants (ten
columns, every stock pile of exactly ten cards), `dealFromStock` returns
`none` (the source's `null`) exactly when the stock is empty or some
column is empty; otherwise it pops the last stock pile, appends that
pile's card `i` face-up to column `i` for every `i` (each column gaining
exactly one card), counts one move, leaves the score unchanged, and
applies `removeCompleteRuns` to the result. -/
theorem spider_C3_dealFromStock (s : GameState)
    (hcols : s.columns.length = 10)
    (hpiles : ∀ pile ∈ s.stock, pile.length = 10) :
    (dealFromStock s = none ↔ s.stock = [] ∨ ∃ col ∈ s.columns, col = []) ∧
    (∀ pile, s.stock.getLast? = some pile →
      (∀ col ∈ s.columns, col ≠ []) →
      ∃ s₁, dealFromStock s = some (removeCompleteRuns s₁) ∧
        s₁.stock = s.stock.dropLast ∧
        s₁.moves = s.moves + 1 ∧
        s₁.score = s.score ∧
        s₁.completedRuns = s.completedRuns ∧
        s₁.difficulty = s.difficulty ∧
        s₁.columns.length = 10 ∧
        (∀ j, j < 10 → s₁.columns.getD j [] =
          s.columns.getD j [] ++
            [{ pile.getD j cardDefault with faceUp := true }])) := by
  constructor
  · unfold dealFromStock
    by_cases hst : s.stock.isEmpty
    · rw [if_pos hst]
      simp only [true_iff]
      exact Or.inl (List.isEmpty_iff.mp hst)
    · rw [if_neg hst]
      have hstne : s.stock ≠ [] := by
        intro h; exact hst (by rw [h]; rfl)
      by_cases hany : s.columns.any (fun col => col.isEmpty)
      · rw [if_pos hany]
        simp only [true_iff]
        obtain ⟨col, hmem, hempty⟩ := List.any_eq_true.mp hany
        exact Or.inr ⟨col, hmem, List.isEmpty_iff.mp hempty⟩
      · rw [if_neg hany]
        rcases hlast : s.stock.getLast? with _ | pile
        · exact absurd (List.getLast?_eq_none_iff.mp hlast) hstne
        · constructor
          · intro h; cases h
          · rintro (h | ⟨col, hmem, hcol⟩)
            · exact absurd h hstne
            · exact absurd
                (List.any_eq_true.mpr ⟨col, hmem, by rw [hcol]; rfl⟩) hany
  · intro pile hlast hne
    have hstne : s.stock ≠ [] := by
      intro h; rw [h] at hlast; cases hlast
    have hany : s.columns.any (fun col => col.isEmpty) = false := by
      rw [Bool.eq_false_iff]
      intro h
      obtain ⟨col, hmem, hempty⟩ := List.any_eq_true.mp h
      exact hne col hmem (List.isEmpty_iff.mp hempty)
    have hplen : pile.length = 10 := by
      apply hpiles
      rw [List.getLast?_eq_getElem?] at hlast
      exact List.getElem?_mem hlast
    refine ⟨{ s with
        columns := s.columns.mapIdx (fun idx col =>
          match pile.get? idx with
          | some c => col ++ [{ c with faceUp := true }]
          | none => col)
        stock := s.stock.dropLast
        moves := s.moves + 1 }, ?_, rfl, rfl, rfl, rfl, rfl, ?_, ?_⟩
    · unfold dealFromStock
      rw [if_neg (by simpa [List.isEmpty_iff] using hstne), hany, hlast]
      rfl
    · rw [List.length_mapIdx, hcols]
    · intro j hj
      have hjlen : j < s.columns.length := by omega
      have hjp : j < pile.length := by omega
      have h1 : s.columns.getD j [] = s.columns[j] := by
        rw [List.getD_eq_getElem?_getD, List.getElem?_eq_getElem hjlen]
        rfl
      have h2 : pile.getD j cardDefault = pile[j] := by
        rw [List.getD_eq_getElem?_getD, List.getElem?_eq_getElem hjp]
        rfl
      have h3 : pile.get? j = some pile[j] := by
        rw [List.get?_eq_getElem?, List.getElem?_eq_getElem hjp]
      rw [List.getD_eq_getElem?_getD, List.getElem?_mapIdx,
        List.getElem?_eq_getElem hjlen]
      simp only [Option.map_some', Option.getD_some, h3, h1, h2]

/-- Witness for `spider_C3_dealFromStock` at the fresh unshuffled 1-suit
game: its stock and columns are non-empty, so a deal succeeds. -/
theorem spider_C3_dealFromStock_witness :
    dealFromStock (createGame 1 (packCards 1)) ≠ none ∧
      (createGame 1 (packCards 1)).stock ≠ [] := by
  constructor
  · have h := spider_C3_dealFromStock (createGame 1 (packCards 1))
      (by rfl) (by decide)
    rw [Ne, h.1]
    rintro (h1 | ⟨col, hmem, rfl⟩)
    · exact absurd h1 (by decide)
    · revert hmem
      decide
  · decide

/-! ### The initial deal (claim C7) -/

theorem markTopFaceUp_length (col : List Card) :
    (markTopFaceUp col).length = col.length := by
  unfold markTopFaceUp
  rcases h : col.getLast? with _ | top
  · rw [List.getLast?_eq_none_iff.mp h]
  · have hne : col ≠ [] := by
      intro hcol; rw [hcol] at h; cases h
    have : 0 < col.length := List.length_pos.mpr hne
    simp only [List.length_append, List.length_dropLast, List.length_cons,
      List.length_nil]
    omega

theorem dealCols_length (sizes : List Nat) (cards : List Card) :
    (dealCols sizes cards).length = sizes.length := by
  induction sizes generalizing cards with
  | nil => rfl
  | cons n rest ih => simp [dealCols, ih]

theorem dealCols_map_length : ∀ (sizes : List Nat) (cards : List Card),
    sizes.sum ≤ cards.length →
    (dealCols sizes cards).map List.length = sizes := by
  intro sizes
  induction sizes with
  | nil => intro cards _; rfl
  | cons n rest ih =>
    intro cards hsum
    rw [List.sum_cons] at hsum
    simp only [dealCols, List.map_cons]
    rw [markTopFaceUp_length, List.length_take]
    congr 1
    · omega
    · exact ih (cards.drop n) (by rw [List.length_drop]; omega)

theorem markTopFaceUp_getD (col : List Card)
    (hcol : ∀ c ∈ col, c.faceUp = false) (k : Nat) (hk : k < col.length) :
    (((markTopFaceUp col).getD k cardDefault).faceUp = true ↔
      k = col.length - 1) := by
  have hne : col ≠ [] := by
    intro h; rw [h] at hk; cases hk
  obtain ⟨top, hlast⟩ := Option.isSome_iff_exists.mp
    (List.getLast?_isSome.mpr hne)
  unfold markTopFaceUp
  rw [hlast]
  dsimp only
  by_cases hk1 : k = col.length - 1
  · rw [List.getD_eq_getElem?_getD,
      List.getElem?_append_right (by rw [List.length_dropLast]; omega)]
    simp only [List.length_dropLast, hk1]
    have : col.length - 1 - (col.length - 1) = 0 := by omega
    rw [this]
    simp
  · rw [List.getD_eq_getElem?_getD,
      List.getElem?_append_left (by rw [List.length_dropLast]; omega)]
    rw [List.dropLast_eq_take, List.getElem?_take]
    rw [if_pos (by omega), List.getElem?_eq_getElem hk]
    simp only [Option.getD_some]
    constructor
    · intro h
      exact absurd (hcol _ (List.getElem_mem hk)) (by rw [h]; simp)
    · intro h
      exact absurd h hk1

theorem dealCols_faceUp : ∀ (sizes : List Nat) (cards : List Card),
    (∀ c ∈ cards, c.faceUp = false) →
    ∀ col ∈ dealCols sizes cards, ∀ k, k < col.length →
      ((col.getD k cardDefault).faceUp = true ↔ k = col.length - 1) := by
  intro sizes
  induction sizes with
  | nil => intro cards _ col hcol; cases hcol
  | cons n rest ih =>
    intro cards hcards col hcol k hk
    rcases List.mem_cons.mp hcol with rfl | hcol
    · rw [markTopFaceUp_length] at hk
      have htake : ∀ c ∈ cards.take n, c.faceUp = false := fun c hc =>
        hcards c ((List.take_sublist n cards).subset hc)
      have := markTopFaceUp_getD (cards.take n) htake k hk
      rw [markTopFaceUp_length]
      exact this
    · exact ih (cards.drop n)
        (fun c hc => hcards c ((List.drop_sublist n cards).subset hc))
        col hcol k hk

theorem chunksAux_pile_length : ∀ (fuel : Nat) (cards : List Card),
    cards.length ≤ fuel → 10 ∣ cards.length →
    ∀ pile ∈ chunksAux fuel cards, pile.length = 10 := by
  intro fuel
  induction fuel with
  | zero => intro cards _ _ pile hp; simp [chunksAux] at hp
  | succ fuel ih =>
    intro cards hlen hdvd pile hp
    match cards with
    | [] => cases hp
    | c :: rest =>
      have hpos : 0 < (c :: rest).length := by simp
      have h10 : 10 ≤ (c :: rest).length := by
        rcases hdvd with ⟨m, hm⟩
        omega
      rcases List.mem_cons.mp hp with rfl | hp
      · rw [List.length_take]
        omega
      · exact ih ((c :: rest).drop 10)
          (by rw [List.length_drop]; omega)
          (by rw [List.length_drop]; rcases hdvd with ⟨m, hm⟩; omega)
          pile hp

theorem chunksAux_count : ∀ (fuel : Nat) (cards : List Card),
    cards.length ≤ fuel →
    (chunksAux fuel cards).length = (cards.length + 9) / 10 := by
  intro fuel
  induction fuel with
  | zero =>
    intro cards hlen
    have : cards = [] := List.length_eq_zero.mp (by omega)
    subst this
    rfl
  | succ fuel ih =>
    intro cards hlen
    match cards with
    | [] => rfl
    | c :: rest =>
      show (chunksAux (fuel + 1) (c :: rest)).length = _
      unfold chunksAux
      rw [List.length_cons]
      have := ih ((c :: rest).drop 10) (by rw [List.length_drop]; simp at hlen ⊢; omega)
      rw [this, List.length_drop]
      simp only [List.length_cons]
      omega

theorem chunksAux_sum : ∀ (fuel : Nat) (cards : List Card),
    cards.length ≤ fuel →
    ((chunksAux fuel cards).map List.length).sum = cards.length := by
  intro fuel
  induction fuel with
  | zero =>
    intro cards hlen
    have : cards = [] := List.length_eq_zero.mp (by omega)
    subst this
    rfl
  | succ fuel ih =>
    intro cards hlen
    match cards with
    | [] => rfl
    | c :: rest =>
      unfold chunksAux
      rw [List.map_cons, List.sum_cons, List.length_take]
      have := ih ((c :: rest).drop 10)
        (by rw [List.length_drop]; simp at hlen ⊢; omega)
      rw [this, List.length_drop]
      simp only [List.length_cons]
      omega

theorem chunksAux_subset : ∀ (fuel : Nat) (cards : List Card),
    ∀ pile ∈ chunksAux fuel cards, ∀ c ∈ pile, c ∈ cards := by
  intro fuel
  induction fuel with
  | zero => intro cards pile hp; simp [chunksAux] at hp
  | succ fuel ih =>
    intro cards pile hp c hc
    match cards with
    | [] => cases hp
    | d :: rest =>
      rcases List.mem_cons.mp hp with rfl | hp
      · exact (List.take_sublist 10 (d :: rest)).subset hc
      · exact (List.drop_sublist 10 (d :: rest)).subset
          (ih ((d :: rest).drop 10) pile hp c hc)

/-- Every card of the unshuffled pack is face-down. -/
theorem packCards_faceUp (d : Nat) : ∀ c ∈ packCards d, c.faceUp = false := by
  intro c hc
  unfold packCards at hc
  rw [List.mem_flatMap] at hc
  obtain ⟨_, _, hc⟩ := hc
  unfold createDeck at hc
  rw [List.mem_flatMap] at hc
  obtain ⟨suit, _, hc⟩ := hc
  rw [List.mem_map] at hc
  obtain ⟨rank, _, rfl⟩ := hc
  rfl

/-- The pack always has 104 cards (`repeats * numSuits * 13 = 104` for
each of the three suit sets the source can construct). -/
theorem packCards_length (d : Nat) : (packCards d).length = 104 := by
  unfold packCards suitsFor
  by_cases h1 : d = 1
  · simp [h1]; rfl
  · by_cases h2 : d = 2
    · simp [h1, h2]; rfl
    · simp [h1, h2]; rfl

/-- **C7.** For difficulty 1, 2, or 4 and any outcome of the shuffle
(any permutation of the constructed pack), `createGame` deals 6 cards to
each of the first 4 columns and 5 to the remaining 6, with exactly the
topmost card of each column face-up; the stock is 5 piles of 10
face-down cards; `completedRuns = 0`, `score = 500`, `moves = 0`; and
the total card count is 104. -/
theorem spider_C7_createGame (d : Nat) (hd : d = 1 ∨ d = 2 ∨ d = 4)
    (shuffled : List Card) (hperm : shuffled.Perm (packCards d)) :
    (createGame d shuffled).columns.map List.length =
        [6, 6, 6, 6, 5, 5, 5, 5, 5, 5] ∧
    (∀ col ∈ (createGame d shuffled).columns, ∀ k, k < col.length →
      ((col.getD k cardDefault).faceUp = true ↔ k = col.length - 1)) ∧
    (createGame d shuffled).stock.length = 5 ∧
    (∀ pile ∈ (createGame d shuffled).stock,
      pile.length = 10 ∧ ∀ c ∈ pile, c.faceUp = false) ∧
    (createGame d shuffled).completedRuns = 0 ∧
    (createGame d shuffled).score = 500 ∧
    (createGame d shuffled).moves = 0 ∧
    cardCount (createGame d shuffled) = 104 := by
  have hlen : shuffled.length = 104 :=
    hperm.length_eq.trans (packCards_length d)
  have hface : ∀ c ∈ shuffled, c.faceUp = false := fun c hc =>
    packCards_faceUp d c (hperm.mem_iff.mp hc)
  have hsum54 : columnSizes.sum = 54 := by decide
  have hdroplen : (shuffled.drop 54).length = 50 := by
    rw [List.length_drop, hlen]
  have hmaplen : (createGame d shuffled).columns.map List.length =
      [6, 6, 6, 6, 5, 5, 5, 5, 5, 5] := by
    show (dealCols columnSizes shuffled).map List.length = _
    rw [dealCols_map_length columnSizes shuffled (by omega)]
    rfl
  refine ⟨hmaplen, ?_, ?_, ?_, rfl, rfl, rfl, ?_⟩
  · exact dealCols_faceUp columnSizes shuffled hface
  · show (chunks10 (shuffled.drop 54)).length = 5
    unfold chunks10
    rw [chunksAux_count _ _ (Nat.le_refl _), hdroplen]
  · intro pile hpile
    constructor
    · exact chunksAux_pile_length _ _ (Nat.le_refl _)
        (by rw [hdroplen]; decide) pile hpile
    · intro c hc
      exact hface c ((List.drop_sublist 54 shuffled).subset
        (chunksAux_subset _ _ pile hpile c hc))
  · unfold cardCount colCount stockCount
    show ((dealCols columnSizes shuffled).map List.length).sum +
        ((chunks10 (shuffled.drop 54)).map List.length).sum + 13 * 0 = 104
    rw [dealCols_map_length columnSizes shuffled (by omega)]
    unfold chunks10
    rw [chunksAux_sum _ _ (Nat.le_refl _), hdroplen]
    decide

/-- Witness for `spider_C7_createGame`: the unshuffled 1-suit pack is a
permutation of itself, so the fresh game it deals has all the stated
properties. -/
theorem spider_C7_createGame_witness :
    (createGame 1 (packCards 1)).columns.map List.length =
        [6, 6, 6, 6, 5, 5, 5, 5, 5, 5] ∧
    (∀ col ∈ (createGame 1 (packCards 1)).columns, ∀ k, k < col.length →
      ((col.getD k cardDefault).faceUp = true ↔ k = col.length - 1)) ∧
    (createGame 1 (packCards 1)).stock.length = 5 ∧
    (∀ pile ∈ (createGame 1 (packCards 1)).stock,
      pile.length = 10 ∧ ∀ c ∈ pile, c.faceUp = false) ∧
    (createGame 1 (packCards 1)).completedRuns = 0 ∧
    (createGame 1 (packCards 1)).score = 500 ∧
    (createGame 1 (packCards 1)).moves = 0 ∧
    cardCount (createGame 1 (packCards 1)) = 104 :=
  spider_C7_createGame 1 (Or.inl rfl) (packCards 1) (List.Perm.refl _)

/-! ### Face-up contiguity toolkit (claim C8) -/

theorem getD_take (l : List Card) (n k : Nat) (hk : k < n) :
    (l.take n).getD k cardDefault = l.getD k cardDefault := by
  rw [List.getD_eq_getElem?_getD, List.getElem?_take, if_pos hk,
    ← List.getD_eq_getElem?_getD]

theorem contig_of_all_faceUp {l : List Card} (h : ∀ c ∈ l, c.faceUp = true) :
    faceUpContig l = true := by
  induction l with
  | nil => rfl
  | cons c rest ih =>
    unfold faceUpContig
    rw [if_pos (h c (List.mem_cons_self c rest))]
    exact List.all_eq_true.mpr fun x hx => h x (List.mem_cons_of_mem _ hx)

theorem contig_of_all_faceDown {l : List Card} (h : ∀ c ∈ l, c.faceUp = false) :
    faceUpContig l = true := by
  induction l with
  | nil => rfl
  | cons c rest ih =>
    unfold faceUpContig
    rw [if_neg (by rw [h c (List.mem_cons_self c rest)]; simp)]
    exact ih fun x hx => h x (List.mem_cons_of_mem _ hx)

/-- Index-wise characterisation of face-up contiguity. -/
theorem contig_indexed_iff (l : List Card) :
    faceUpContig l = true ↔
      ∀ i j, i ≤ j → j < l.length →
        (l.getD i cardDefault).faceUp = true →
        (l.getD j cardDefault).faceUp = true := by
  induction l with
  | nil => simp [faceUpContig]
  | cons c rest ih =>
    unfold faceUpContig
    by_cases hc : c.faceUp = true
    · rw [if_pos hc]
      constructor
      · intro hall i j hij hj hfi
        match j with
        | 0 => simpa using hc
        | j + 1 =>
          have hjr : j < rest.length := by simpa using hj
          have := List.all_eq_true.mp hall (rest.getD j cardDefault)
            (getD_mem hjr)
          simpa using this
      · intro h
        refine List.all_eq_true.mpr ?_
        intro x hx
        obtain ⟨n, hn, rfl⟩ := List.mem_iff_getElem.mp hx
        have hgd : (c :: rest).getD (n + 1) cardDefault = rest[n] := by
          rw [List.getD_cons_succ, List.getD_eq_getElem?_getD,
            List.getElem?_eq_getElem hn]
          rfl
        have := h 0 (n + 1) (by omega) (by simpa using hn) (by simpa using hc)
        rwa [hgd] at this
    · rw [if_neg hc, ih]
      constructor
      · intro h i j hij hj hfi
        match i, j with
        | 0, _ =>
          rw [List.getD_cons_zero] at hfi
          exact absurd hfi hc
        | i + 1, 0 => omega
        | i + 1, j + 1 =>
          have := h i j (by omega) (by simpa using hj)
            (by simpa using hfi)
          simpa using this
      · intro h i j hij hj hfi
        have := h (i + 1) (j + 1) (by omega) (by simpa using hj)
          (by simpa using hfi)
        simpa using this

theorem contig_take {l : List Card} (h : faceUpContig l = true) (n : Nat) :
    faceUpContig (l.take n) = true := by
  rw [contig_indexed_iff] at h ⊢
  intro i j hij hj hfi
  rw [List.length_take] at hj
  have hjn : j < n := by omega
  have hjl : j < l.length := by omega
  rw [getD_take _ _ _ hjn]
  rw [getD_take _ _ _ (by omega)] at hfi
  exact h i j hij hjl hfi

theorem contig_append_faceUp {l m : List Card}
    (hl : faceUpContig l = true) (hm : ∀ c ∈ m, c.faceUp = true) :
    faceUpContig (l ++ m) = true := by
  induction l with
  | nil => simpa using contig_of_all_faceUp hm
  | cons c rest ih =>
    rw [List.cons_append]
    unfold faceUpContig at hl ⊢
    by_cases hc : c.faceUp = true
    · rw [if_pos hc] at hl ⊢
      rw [List.all_append, hl]
      simpa using fun x hx => hm x hx
    · rw [if_neg hc] at hl ⊢
      exact ih hl

theorem contig_flipTop {l : List Card} (h : faceUpContig l = true) :
    faceUpContig (flipTop l) = true := by
  rcases hlast : l.getLast? with _ | top
  · have : flipTop l = l := by unfold flipTop; rw [hlast]
    rwa [this]
  · have hne : l ≠ [] := by
      intro h'; rw [h'] at hlast; cases hlast
    by_cases hface : top.faceUp = true
    · have : flipTop l = l := by unfold flipTop; rw [hlast]; simp [hface]
      rwa [this]
    · rw [Bool.not_eq_true] at hface
      have hft : flipTop l = l.dropLast ++ [{ top with faceUp := true }] := by
        unfold flipTop; rw [hlast]; simp [hface]
      rw [hft]
      apply contig_append_faceUp
      · -- every card of `l.dropLast` is face-down: were one face-up,
        -- contiguity would force the (face-down) last card face-up
        apply contig_of_all_faceDown
        intro c hc
        obtain ⟨n, hn, rfl⟩ := List.mem_iff_getElem.mp hc
        have hn' : n < l.length - 1 := by
          have := hn
          rwa [List.length_dropLast] at this
        by_contra hup
        rw [Bool.not_eq_false] at hup
        have hup' : (l.getD n cardDefault).faceUp = true := by
          have e : l.dropLast[n]? = l[n]? := by
            rw [List.dropLast_eq_take, List.getElem?_take, if_pos hn']
          have e2 : l[n]? = some l.dropLast[n] := by
            rw [← e]
            exact List.getElem?_eq_getElem hn
          rw [List.getD_eq_getElem?_getD, e2]
          exact hup
        have hlen : 0 < l.length := List.length_pos.mpr hne
        have := (contig_indexed_iff l).mp h n (l.length - 1) (by omega)
          (by omega) hup'
        have htopD : l.getD (l.length - 1) cardDefault = top := by
          rw [List.getD_eq_getElem?_getD, ← List.getLast?_eq_getElem?, hlast]
          rfl
        rw [htopD, hface] at this
        cases this
      · intro c hc
        rw [List.mem_singleton] at hc
        rw [hc]

/-! ### No-complete-run toolkit (claim C10) -/

theorem window_getD (l : List Card) (p k : Nat) (hk : k < 13) :
    ((l.drop p).take 13).getD k cardDefault = l.getD (p + k) cardDefault := by
  rw [List.getD_eq_getElem?_getD, List.getElem?_take, if_pos hk,
    List.getElem?_drop, ← List.getD_eq_getElem?_getD]

theorem hasRunAt_le {col : List Card} {p : Nat} (h : HasRunAt col p) :
    p + 13 ≤ col.length := by
  have hlen := h.1
  rw [List.length_take, List.length_drop] at hlen
  omega

theorem noRun_of_short {col : List Card} (h : col.length < 13) : NoRun col := by
  intro p hp
  have := hasRunAt_le hp
  omega

theorem hasRunAt_take {col : List Card} {n p : Nat}
    (hp : HasRunAt (col.take n) p) : HasRunAt col p ∧ p + 13 ≤ n := by
  have hle := hasRunAt_le hp
  rw [List.length_take] at hle
  have hn : p + 13 ≤ n := by omega
  refine ⟨?_, hn⟩
  unfold HasRunAt at hp ⊢
  rw [List.drop_take, List.take_take] at hp
  have e : (13 : Nat) ⊓ (n - p) = 13 := by omega
  rwa [e] at hp

theorem noRun_take {col : List Card} (h : NoRun col) (n : Nat) :
    NoRun (col.take n) := fun p hp => h p (hasRunAt_take hp).1

theorem noRun_flipTop {l : List Card} (hc : faceUpContig l = true)
    (h : NoRun l) : NoRun (flipTop l) := by
  rcases hlast : l.getLast? with _ | top
  · have : flipTop l = l := by unfold flipTop; rw [hlast]
    rwa [this]
  · have hne : l ≠ [] := by
      intro h'; rw [h'] at hlast; cases hlast
    have hlpos : 0 < l.length := List.length_pos.mpr hne
    by_cases hface : top.faceUp = true
    · have : flipTop l = l := by unfold flipTop; rw [hlast]; simp [hface]
      rwa [this]
    · rw [Bool.not_eq_true] at hface
      have hft : flipTop l = l.dropLast ++ [{ top with faceUp := true }] := by
        unfold flipTop; rw [hlast]; simp [hface]
      rw [hft]
      intro p hp
      have hple := hasRunAt_le hp
      rw [List.length_append, List.length_dropLast,
        List.length_singleton] at hple
      have hp0 : p < l.length - 1 := by omega
      have hw0 := hp.2.1 0 (by omega)
      rw [window_getD _ p 0 (by omega), Nat.add_zero] at hw0
      have hgd : (l.dropLast ++ [{ top with faceUp := true }]).getD p
          cardDefault = l.getD p cardDefault := by
        rw [List.getD_eq_getElem?_getD,
          List.getElem?_append_left (by rw [List.length_dropLast]; omega),
          List.dropLast_eq_take, List.getElem?_take, if_pos (by omega),
          ← List.getD_eq_getElem?_getD]
      rw [hgd] at hw0
      have := (contig_indexed_iff l).mp hc p (l.length - 1) (by omega)
        (by omega) hw0
      have htopD : l.getD (l.length - 1) cardDefault = top := by
        rw [List.getD_eq_getElem?_getD, ← List.getLast?_eq_getElem?, hlast]
        rfl
      rw [htopD, hface] at this
      cases this

/-- A complete run inside `tgt ++ B`, where `tgt` had none and `B` is a
rank-descending chain, can only sit at the very top: a run ends in an
Ace, and inside the chain an Ace has no successor. -/
theorem run_in_append (tgt B : List Card)
    (hchain : ∀ k, k + 1 < B.length →
      (getRankValue (B.getD k cardDefault).rank : Int) -
        (getRankValue (B.getD (k + 1) cardDefault).rank : Int) = 1)
    (htgt : NoRun tgt) :
    ∀ p, HasRunAt (tgt ++ B) p → p + 13 = tgt.length + B.length := by
  intro p hp
  have hple := hasRunAt_le hp
  rw [List.length_append] at hple
  by_cases hin : p + 13 ≤ tgt.length
  · exfalso
    apply htgt p
    unfold HasRunAt at hp ⊢
    have hwindow : ((tgt ++ B).drop p).take 13 = (tgt.drop p).take 13 := by
      rw [List.drop_append_eq_append_drop, List.take_append_eq_append_take]
      have h1 : p - tgt.length = 0 := by omega
      have h2 : 13 - (tgt.drop p).length = 0 := by
        rw [List.length_drop]; omega
      rw [h1, h2]
      simp
    rwa [hwindow] at hp
  · by_contra hne
    have h13lt : p + 13 < tgt.length + B.length := by omega
    have hr12 := hp.2.2.2 12 (by omega)
    rw [window_getD _ p 12 (by omega)] at hr12
    have hk12 : tgt.length ≤ p + 12 := by omega
    have hgetd : (tgt ++ B).getD (p + 12) cardDefault =
        B.getD (p + 12 - tgt.length) cardDefault := by
      rw [List.getD_eq_getElem?_getD, List.getElem?_append_right hk12,
        ← List.getD_eq_getElem?_getD]
    rw [hgetd] at hr12
    have hchain12 := hchain (p + 12 - tgt.length) (by omega)
    have e : p + 12 - tgt.length + 1 = p + 13 - tgt.length := by omega
    rw [e] at hchain12
    have hpos := getRankValue_pos
      ((B.getD (p + 13 - tgt.length) cardDefault).rank)
    omega

/-- A run at the very top of a column is exactly what `checkCompleteRun`
finds. -/
theorem hasRunAt_top_found {col : List Card} {p : Nat}
    (hp : HasRunAt col p) (htop : p + 13 = col.length) :
    (checkCompleteRun col).found = true := by
  rw [checkCompleteRun_found_iff]
  refine ⟨by omega, ?_⟩
  unfold HasRunAt at hp
  have hpe : p = col.length - 13 := by omega
  rw [hpe] at hp
  rwa [List.take_of_length_le (by rw [List.length_drop]; omega)] at hp

/-- One pass of the per-column run removal turns "runs only at the top"
into "no runs at all", preserving contiguity. -/
theorem removeRun_column_sound (col : List Card)
    (hcontig : faceUpContig col = true)
    (htop : ∀ p, HasRunAt col p → p + 13 = col.length) :
    faceUpContig (removeRunFromColumn col).1 = true ∧
      NoRun (removeRunFromColumn col).1 := by
  unfold removeRunFromColumn
  by_cases hfound : (checkCompleteRun col).found = true
  · rw [if_pos hfound]
    dsimp only
    have h13 := checkCompleteRun_found_length hfound
    have hctake : faceUpContig (col.take (col.length - 13)) = true :=
      contig_take hcontig _
    have htake : NoRun (col.take (col.length - 13)) := by
      intro p hp
      obtain ⟨hcol, hle⟩ := hasRunAt_take hp
      have := htop p hcol
      omega
    exact ⟨contig_flipTop hctake, noRun_flipTop hctake htake⟩
  · rw [if_neg hfound]
    refine ⟨hcontig, ?_⟩
    intro p hp
    exact hfound (hasRunAt_top_found hp (htop p hp))

theorem removeCompleteRuns_columns_sound (s : GameState)
    (h : ∀ col ∈ s.columns, faceUpContig col = true ∧
      (∀ p, HasRunAt col p → p + 13 = col.length)) :
    ∀ col ∈ (removeCompleteRuns s).columns,
      faceUpContig col = true ∧ NoRun col := by
  intro col hcol
  have : (removeCompleteRuns s).columns =
      (s.columns.map removeRunFromColumn).map Prod.fst := rfl
  rw [this, List.map_map] at hcol
  obtain ⟨c, hc, rfl⟩ := List.mem_map.mp hcol
  exact removeRun_column_sound c (h c hc).1 (h c hc).2

theorem removeCompleteRuns_columns_length (s : GameState) :
    (removeCompleteRuns s).columns.length = s.columns.length := by
  show ((s.columns.map removeRunFromColumn).map Prod.fst).length = _
  rw [List.length_map, List.length_map]

/-! ### Preservation of the invariant by `moveCards` -/

theorem sum_set_nat (L : List Nat) (n : Nat) (hn : n < L.length) (x : Nat) :
    (L.set n x).sum + L.getD n 0 = L.sum + x := by
  rw [List.sum_set, if_pos hn]
  have h1 := List.sum_take_add_sum_drop L n
  have h2 : L.drop n = L[n] :: L.drop (n + 1) :=
    (List.getElem_cons_drop L n hn).symm
  have h3 : L.getD n 0 = L[n] := by
    rw [List.getD_eq_getElem?_getD, List.getElem?_eq_getElem hn]
    rfl
  have h4 : (L.drop n).sum = L[n] + (L.drop (n + 1)).sum := by
    rw [h2, List.sum_cons]
  omega

theorem getD_map_length (cols : List (List Card)) (n : Nat)
    (hn : n < cols.length) :
    (cols.map List.length).getD n 0 = (cols.getD n []).length := by
  rw [List.getD_eq_getElem?_getD, List.getElem?_map,
    List.getElem?_eq_getElem hn, List.getD_eq_getElem?_getD,
    List.getElem?_eq_getElem hn]
  rfl

theorem colSum_set (cols : List (List Card)) (n : Nat) (hn : n < cols.length)
    (newCol : List Card) :
    ((cols.set n newCol).map List.length).sum + (cols.getD n []).length =
      (cols.map List.length).sum + newCol.length := by
  rw [List.map_set]
  have := sum_set_nat (cols.map List.length) n
    (by rw [List.length_map]; exact hn) newCol.length
  rwa [getD_map_length cols n hn] at this

theorem canMoveCards_true_facts {src : List Card} {i : Int} {tgt : List Card}
    (h : canMoveCards src i tgt = true) :
    0 ≤ i ∧ i < (src.length : Int) ∧ isValidSequence src i.toNat = true := by
  unfold canMoveCards at h
  by_cases hcond : (decide (i < 0) || decide ((src.length : Int) ≤ i)) = true
  · rw [hcond] at h
    simp at h
  · rw [Bool.not_eq_true] at hcond
    rw [hcond] at h
    simp only [Bool.false_eq_true, if_false] at h
    simp only [Bool.or_eq_false_iff, decide_eq_false_iff_not] at hcond
    refine ⟨by omega, by omega, ?_⟩
    by_cases hvs : isValidSequence src i.toNat
    · exact hvs
    · rw [Bool.not_eq_true] at hvs
      rw [hvs] at h
      simp at h

theorem canMoveCardsJS_true_inv {oc ot : Option (List Card)} {i : Int}
    (h : canMoveCardsJS oc i ot = some true) :
    ∃ src tgt, oc = some src ∧ ot = some tgt ∧
      canMoveCards src i tgt = true := by
  rcases oc with _ | src
  · exfalso
    unfold canMoveCardsJS at h
    by_cases h0 : i < 0
    · rw [if_pos h0] at h
      simp at h
    · rw [if_neg h0] at h
      cases h
  · rcases ot with _ | tgt
    · exfalso
      unfold canMoveCardsJS at h
      by_cases h0 : i < 0
      · rw [if_pos h0] at h
        simp at h
      · rw [if_neg h0] at h
        dsimp only at h
        split_ifs at h <;> simp_all
    · refine ⟨src, tgt, rfl, rfl, ?_⟩
      rw [canMoveCardsJS_some_some] at h
      injection h

theorem validSeq_chain {cards : List Card} {s : Nat}
    (h : isValidSequence cards s = true) :
    ∀ k, k + 1 < (cards.drop s).length →
      (getRankValue ((cards.drop s).getD k cardDefault).rank : Int) -
        (getRankValue ((cards.drop s).getD (k + 1) cardDefault).rank : Int)
        = 1 := by
  rw [isValidSequence_drop, valid_window_iff] at h
  intro k hk
  have := h.2 k hk
  simp only [seqStep, Bool.and_eq_true, beq_iff_eq] at this
  exact this.2

theorem getElem?_some_lt {α : Type} {l : List α} {n : Nat} {x : α}
    (h : l.get? n = some x) : n < l.length := by
  rw [List.get?_eq_getElem?] at h
  exact (List.getElem?_eq_some.mp h).1

theorem Inv_move {s : GameState} (hInv : Inv s) {src i tgt : Int}
    {s' : GameState} (hstep : moveCardsJS s src i tgt = some s') :
    Inv s' := by
  obtain ⟨hc10, hpiles, hcount, hcontig, hnorun⟩ := hInv
  unfold moveCardsJS at hstep
  by_cases heq : src = tgt
  · rw [if_pos heq] at hstep
    injection hstep with h
    subst h
    exact ⟨hc10, hpiles, hcount, hcontig, hnorun⟩
  · rw [if_neg heq] at hstep
    rcases hcm : canMoveCardsJS (jsIndex s.columns src) i
        (jsIndex s.columns tgt) with _ | b
    · rw [hcm] at hstep
      cases hstep
    · rw [hcm] at hstep
      rcases b with _ | _
      · injection hstep with h
        subst h
        exact ⟨hc10, hpiles, hcount, hcontig, hnorun⟩
      · injection hstep with h
        subst h
        obtain ⟨srcCol, tgtCol, hosrc, hotgt, hcmv⟩ :=
          canMoveCardsJS_true_inv hcm
        obtain ⟨h0src, hgsrc⟩ := jsIndex_eq_some hosrc
        obtain ⟨h0tgt, hgtgt⟩ := jsIndex_eq_some hotgt
        have hsrcN : src.toNat < s.columns.length := getElem?_some_lt hgsrc
        have htgtN : tgt.toNat < s.columns.length := getElem?_some_lt hgtgt
        have hsrcD : s.columns.getD src.toNat [] = srcCol := jsIndex_getD hosrc
        have htgtD : s.columns.getD tgt.toNat [] = tgtCol := jsIndex_getD hotgt
        obtain ⟨-, hilen, hvs⟩ := canMoveCards_true_facts hcmv
        have hneN : src.toNat ≠ tgt.toNat := by omega
        have hmemsrc : srcCol ∈ s.columns := hsrcD ▸ getD_mem hsrcN
        have hmemtgt : tgtCol ∈ s.columns := htgtD ▸ getD_mem htgtN
        have hiN : i.toNat ≤ srcCol.length := by omega
        -- the intermediate state after the splice/append/flip
        have hgd1 : (s.columns.set src.toNat
            (flipTop (srcCol.take i.toNat))).getD tgt.toNat [] = tgtCol := by
          rw [List.getD_eq_getElem?_getD, List.getElem?_set_ne hneN,
            ← List.getD_eq_getElem?_getD]
          exact htgtD
        have hcols2 : ∀ col ∈ (applyMove s src.toNat i.toNat tgt.toNat).columns,
            faceUpContig col = true ∧
              (∀ p, HasRunAt col p → p + 13 = col.length) := by
          intro col hcol
          unfold applyMove at hcol
          dsimp only at hcol
          rw [hsrcD, hgd1] at hcol
          rcases List.mem_or_eq_of_mem_set hcol with hcol1 | rfl
          · rcases List.mem_or_eq_of_mem_set hcol1 with hcol0 | rfl
            · exact ⟨hcontig col hcol0,
                fun p hp => absurd hp (hnorun col hcol0 p)⟩
            · have hct : faceUpContig (srcCol.take i.toNat) = true :=
                contig_take (hcontig srcCol hmemsrc) _
              have hnt : NoRun (srcCol.take i.toNat) :=
                noRun_take (hnorun srcCol hmemsrc) _
              exact ⟨contig_flipTop hct,
                fun p hp => absurd hp (noRun_flipTop hct hnt p)⟩
          · constructor
            · exact contig_append_faceUp (hcontig tgtCol hmemtgt)
                (isValidSequence_faceUp hvs)
            · intro p hp
              have := run_in_append tgtCol (srcCol.drop i.toNat)
                (validSeq_chain hvs) (hnorun tgtCol hmemtgt) p hp
              rw [List.length_append]
              exact this
        have hlen2 : (applyMove s src.toNat i.toNat tgt.toNat).columns.length
            = 10 := by
          unfold applyMove
          dsimp only
          rw [List.length_set, List.length_set]
          exact hc10
        have hcount2 : cardCount (applyMove s src.toNat i.toNat tgt.toNat)
            = 104 := by
          unfold cardCount colCount stockCount at hcount ⊢
          unfold applyMove
          dsimp only
          rw [hsrcD, hgd1]
          have h1 := colSum_set s.columns src.toNat hsrcN
            (flipTop (srcCol.take i.toNat))
          have h2 := colSum_set (s.columns.set src.toNat
              (flipTop (srcCol.take i.toNat))) tgt.toNat
            (by rw [List.length_set]; exact htgtN)
            (tgtCol ++ srcCol.drop i.toNat)
          rw [hgd1] at h2
          have e1 : (flipTop (srcCol.take i.toNat)).length = i.toNat := by
            rw [flipTop_length, List.length_take]
            omega
          have e2 : (tgtCol ++ srcCol.drop i.toNat).length =
              tgtCol.length + (srcCol.length - i.toNat) := by
            rw [List.length_append, List.length_drop]
          rw [hsrcD] at h1
          omega
        refine ⟨?_, ?_, ?_, ?_, ?_⟩
        · rw [removeCompleteRuns_columns_length]
          exact hlen2
        · rw [removeCompleteRuns_stock]
          exact hpiles
        · rw [cardCount_removeCompleteRuns]
          exact hcount2
        · intro col hcol
          exact (removeCompleteRuns_columns_sound _ hcols2 col hcol).1
        · intro col hcol
          exact (removeCompleteRuns_columns_sound _ hcols2 col hcol).2

/-! ### Preservation of the invariant by `dealFromStock`, and the
initial state -/

theorem sum_len_mapIdx (cols : List (List Card)) :
    ∀ (f : Nat → List Card → List Card),
    (∀ i col, i < cols.length → (f i col).length = col.length + 1) →
    ((cols.mapIdx f).map List.length).sum =
      (cols.map List.length).sum + cols.length := by
  induction cols with
  | nil => intro f _; rfl
  | cons c rest ih =>
    intro f hf
    rw [List.mapIdx_cons, List.map_cons, List.sum_cons,
      hf 0 c (by simp), List.map_cons, List.sum_cons,
      ih (fun i => f (i + 1))
        (fun i col hi => hf (i + 1) col (by simp only [List.length_cons]; omega))]
    simp only [List.length_cons]
    omega

theorem Inv_deal {s : GameState} (hInv : Inv s) {s' : GameState}
    (hstep : dealFromStock s = some s') : Inv s' := by
  obtain ⟨hc10, hpiles, hcount, hcontig, hnorun⟩ := hInv
  unfold dealFromStock at hstep
  by_cases hst : s.stock.isEmpty
  · rw [if_pos hst] at hstep
    cases hstep
  · rw [if_neg hst] at hstep
    by_cases hany : s.columns.any (fun col => col.isEmpty)
    · rw [if_pos hany] at hstep
      cases hstep
    · rw [if_neg hany] at hstep
      rcases hlast : s.stock.getLast? with _ | pile
      · rw [hlast] at hstep
        cases hstep
      · rw [hlast] at hstep
        dsimp only at hstep
        injection hstep with h
        subst h
        have hmempile : pile ∈ s.stock := by
          rw [List.getLast?_eq_getElem?] at hlast
          exact List.getElem?_mem hlast
        have hplen : pile.length = 10 := hpiles pile hmempile
        have hcolsT : ∀ col ∈ s.columns.mapIdx (fun idx col =>
            match pile.get? idx with
            | some c => col ++ [{ c with faceUp := true }]
            | none => col),
            faceUpContig col = true ∧
              (∀ p, HasRunAt col p → p + 13 = col.length) := by
          intro col hcol
          obtain ⟨n, hn, rfl⟩ := List.mem_iff_getElem.mp hcol
          have hn' : n < s.columns.length := by
            rw [List.length_mapIdx] at hn
            exact hn
          have hnp : n < pile.length := by omega
          have hsome : pile.get? n = some pile[n] := by
            rw [List.get?_eq_getElem?, List.getElem?_eq_getElem hnp]
          rw [List.getElem_mapIdx, hsome]
          dsimp only
          have hmem : s.columns[n] ∈ s.columns := List.getElem_mem hn'
          constructor
          · exact contig_append_faceUp (hcontig _ hmem)
              (by intro c hc; rw [List.mem_singleton] at hc; rw [hc])
          · intro p hp
            have := run_in_append s.columns[n]
              [{ pile[n] with faceUp := true }]
              (by intro k hk; simp at hk) (hnorun _ hmem) p hp
            rw [List.length_append]
            exact this
        refine ⟨?_, ?_, ?_, ?_, ?_⟩
        · rw [removeCompleteRuns_columns_length]
          show (s.columns.mapIdx _).length = 10
          rw [List.length_mapIdx]
          exact hc10
        · rw [removeCompleteRuns_stock]
          intro p hp
          exact hpiles p ((List.dropLast_sublist s.stock).subset hp)
        · rw [cardCount_removeCompleteRuns]
          unfold cardCount colCount stockCount at hcount ⊢
          dsimp only
          have hsplit : s.stock.dropLast ++ [pile] = s.stock :=
            List.dropLast_append_getLast? pile hlast
          have hsum : (s.stock.map List.length).sum =
              (s.stock.dropLast.map List.length).sum + 10 := by
            conv_lhs => rw [← hsplit]
            rw [List.map_append, List.sum_append, List.map_cons,
              List.map_nil, List.sum_cons, List.sum_nil, hplen]
            omega
          have hcols : ((s.columns.mapIdx (fun idx col =>
              match pile.get? idx with
              | some c => col ++ [{ c with faceUp := true }]
              | none => col)).map List.length).sum =
              (s.columns.map List.length).sum + 10 := by
            rw [sum_len_mapIdx s.columns _ ?_, hc10]
            intro i col hi
            have hip : i < pile.length := by omega
            rw [List.get?_eq_getElem?, List.getElem?_eq_getElem hip]
            dsimp only
            rw [List.length_append]
            rfl
          omega
        · intro col hcol
          exact (removeCompleteRuns_columns_sound _ hcolsT col hcol).1
        · intro col hcol
          exact (removeCompleteRuns_columns_sound _ hcolsT col hcol).2

theorem Inv_init (d : Nat) (shuffled : List Card)
    (hperm : shuffled.Perm (packCards d)) : Inv (createGame d shuffled) := by
  have hlen : shuffled.length = 104 :=
    hperm.length_eq.trans (packCards_length d)
  have hface : ∀ c ∈ shuffled, c.faceUp = false := fun c hc =>
    packCards_faceUp d c (hperm.mem_iff.mp hc)
  have hsum54 : columnSizes.sum = 54 := by decide
  have hdroplen : (shuffled.drop 54).length = 50 := by
    rw [List.length_drop, hlen]
  refine ⟨?_, ?_, ?_, ?_, ?_⟩
  · show (dealCols columnSizes shuffled).length = 10
    rw [dealCols_length]
    rfl
  · intro pile hpile
    exact chunksAux_pile_length _ _ (Nat.le_refl _)
      (by rw [hdroplen]; decide) pile hpile
  · unfold cardCount colCount stockCount
    show ((dealCols columnSizes shuffled).map List.length).sum +
        ((chunks10 (shuffled.drop 54)).map List.length).sum + 13 * 0 = 104
    rw [dealCols_map_length columnSizes shuffled (by omega)]
    unfold chunks10
    rw [chunksAux_sum _ _ (Nat.le_refl _), hdroplen]
    decide
  · intro col hcol
    rw [contig_indexed_iff]
    intro i j hij hj hfi
    have hpat := dealCols_faceUp columnSizes shuffled hface col hcol
    have hi' : i < col.length := by omega
    have hieq : i = col.length - 1 := (hpat i hi').mp hfi
    have hjeq : j = col.length - 1 := by omega
    exact (hpat j hj).mpr hjeq
  · intro col hcol
    apply noRun_of_short
    have hmem : col.length ∈
        (dealCols columnSizes shuffled).map List.length :=
      List.mem_map_of_mem _ hcol
    rw [dealCols_map_length columnSizes shuffled (by omega)] at hmem
    have : col.length = 6 ∨ col.length = 5 := by
      simp [columnSizes] at hmem
      tauto
    omega

/-- Every reachable state satisfies the inductive invariant. -/
theorem reachable_inv {s : GameState} (h : Reachable s) : Inv s := by
  induction h with
  | init d shuffled hperm => exact Inv_init d shuffled hperm
  | move s src i tgt s' hs hstep ih => exact Inv_move ih hstep
  | deal s s' hs hstep ih => exact Inv_deal ih hstep

/-- **C4.** Every reachable state keeps columns + stock + 13 per
completed run at exactly 104 cards, has at most 8 completed runs, is won
exactly when `completedRuns = 8`, and that happens exactly when all
columns and the stock are simultaneously empty. -/
theorem spider_C4_invariants (s : GameState) (hs : Reachable s) :
    cardCount s = 104 ∧ s.completedRuns ≤ 8 ∧
    (isGameWon s = true ↔ s.completedRuns = 8) ∧
    (s.completedRuns = 8 ↔
      ((∀ col ∈ s.columns, col = []) ∧ s.stock = [])) := by
  obtain ⟨hc10, hpiles, hcount, -, -⟩ := reachable_inv hs
  have hcount' := hcount
  unfold cardCount at hcount'
  refine ⟨hcount, by omega, ?_, ?_⟩
  · unfold isGameWon
    simp
  · constructor
    · intro h8
      rw [h8] at hcount'
      have hcol0 : colCount s = 0 := by omega
      have hst0 : stockCount s = 0 := by omega
      constructor
      · intro col hcol
        unfold colCount at hcol0
        rw [List.sum_eq_zero_iff] at hcol0
        exact List.length_eq_zero.mp
          (hcol0 col.length (List.mem_map_of_mem _ hcol))
      · rcases hstock : s.stock with _ | ⟨p, rest⟩
        · rfl
        · exfalso
          unfold stockCount at hst0
          rw [hstock, List.map_cons, List.sum_cons] at hst0
          have := hpiles p (by rw [hstock]; exact List.mem_cons_self _ _)
          omega
    · rintro ⟨hcols, hstock⟩
      have hcol0 : colCount s = 0 := by
        unfold colCount
        rw [List.sum_eq_zero_iff]
        intro x hx
        obtain ⟨col, hcol, rfl⟩ := List.mem_map.mp hx
        rw [hcols col hcol]
        rfl
      have hst0 : stockCount s = 0 := by
        unfold stockCount
        rw [hstock]
        rfl
      omega

/-- Witness for `spider_C4_invariants` at the fresh unshuffled 1-suit
game. -/
theorem spider_C4_invariants_witness :
    cardCount (createGame 1 (packCards 1)) = 104 ∧
      (createGame 1 (packCards 1)).completedRuns ≤ 8 ∧
      (isGameWon (createGame 1 (packCards 1)) = true ↔
        (createGame 1 (packCards 1)).completedRuns = 8) := by
  have h := spider_C4_invariants (createGame 1 (packCards 1))
    (Reachable.init 1 (packCards 1) (List.Perm.refl _))
  exact ⟨h.1, h.2.1, h.2.2.1⟩

/-- **C8.** In every reachable state, face-up-ness is contiguous toward
the top of each column: a face-up card has only face-up cards above it. -/
theorem spider_C8_faceUp_contiguity (s : GameState) (hs : Reachable s) :
    ∀ col ∈ s.columns, ∀ i j, i ≤ j → j < col.length →
      (col.getD i cardDefault).faceUp = true →
      (col.getD j cardDefault).faceUp = true := by
  obtain ⟨-, -, -, hcontig, -⟩ := reachable_inv hs
  intro col hcol
  exact (contig_indexed_iff col).mp (hcontig col hcol)

/-- Witness for `spider_C8_faceUp_contiguity` at the fresh unshuffled
1-suit game (column 0, indices 5 and 5). -/
theorem spider_C8_faceUp_contiguity_witness :
    (((createGame 1 (packCards 1)).columns.getD 0 []).getD 5
      cardDefault).faceUp = true := by
  apply spider_C8_faceUp_contiguity (createGame 1 (packCards 1))
    (Reachable.init 1 (packCards 1) (List.Perm.refl _))
    ((createGame 1 (packCards 1)).columns.getD 0 [])
    (getD_mem (by decide)) 5 5 (Nat.le_refl 5) (by decide)
  decide

/-- **C10.** No reachable state contains a complete run in any column:
both operations run `removeCompleteRuns` before returning, and a removal
(with its top-card flip) never leaves a fresh complete run behind. -/
theorem spider_C10_no_complete_run (s : GameState) (hs : Reachable s) :
    ∀ col ∈ s.columns, (checkCompleteRun col).found = false := by
  obtain ⟨-, -, -, -, hnorun⟩ := reachable_inv hs
  intro col hcol
  rw [Bool.eq_false_iff]
  intro hfound
  obtain ⟨h13, hrw⟩ := (checkCompleteRun_found_iff col).mp hfound
  apply hnorun col hcol (col.length - 13)
  unfold HasRunAt
  rwa [List.take_of_length_le (by rw [List.length_drop]; omega)]

/-- Witness for `spider_C10_no_complete_run` at the fresh unshuffled
1-suit game (column 3). -/
theorem spider_C10_no_complete_run_witness :
    (checkCompleteRun ((createGame 1 (packCards 1)).columns.getD 3 [])).found
      = false :=
  spider_C10_no_complete_run (createGame 1 (packCards 1))
    (Reachable.init 1 (packCards 1) (List.Perm.refl _))
    ((createGame 1 (packCards 1)).columns.getD 3 []) (getD_mem (by decide))

/-! ### The hint search (claim C9) -/

theorem findSome?_congr {α β : Type} {f g : α → Option β} :
    ∀ (l : List α), (∀ a ∈ l, f a = g a) →
      l.findSome? f = l.findSome? g := by
  intro l
  induction l with
  | nil => intro _; rfl
  | cons a l ih =>
    intro h
    rw [List.findSome?_cons, List.findSome?_cons,
      h a (List.mem_cons_self a l), ih fun x hx => h x (List.mem_cons_of_mem _ hx)]

theorem findSome?_guard {α β : Type} (p : α → Bool) (f : α → β) :
    ∀ (l : List α),
      l.findSome? (fun a => if p a then some (f a) else none) =
        ((l.filter p).head?).map f := by
  intro l
  induction l with
  | nil => rfl
  | cons a l ih =>
    rw [List.findSome?_cons, List.filter_cons]
    by_cases hp : p a = true
    · simp [hp]
    · rw [Bool.not_eq_true] at hp
      simp [hp, ih]

theorem head?_filter_flatMap {α β : Type} (g : α → List β) (p : β → Bool) :
    ∀ (l : List α),
      ((l.flatMap g).filter p).head? =
        l.findSome? (fun a => ((g a).filter p).head?) := by
  intro l
  induction l with
  | nil => rfl
  | cons a l ih =>
    rw [List.flatMap_cons, List.filter_append, List.head?_append,
      List.findSome?_cons, ih]
    rcases h : ((g a).filter p).head? with _ | b <;> simp [h, Option.or]

theorem head?_filter_map {α β : Type} (f : α → β) (p : β → Bool) (l : List α) :
    ((l.map f).filter p).head? =
      ((l.filter (fun x => p (f x))).head?).map f := by
  rw [List.filter_map, List.head?_map]
  rfl

theorem not_isEmpty_eq_decide (l : List Card) :
    (!l.isEmpty) = decide (0 < l.length) := by
  cases l <;> simp

/-- The tier-1 nested loops of `findHint` compute exactly the first
candidate of the spec's lexicographic search satisfying the tier-1
conditions. -/
theorem findHintTier1_eq (s : GameState) :
    findHintTier1 s = hintSpecTier1 s := by
  unfold findHintTier1 hintSpecTier1 hintCandidates
  rw [head?_filter_flatMap]
  apply findSome?_congr
  intro srcCol _
  rw [head?_filter_flatMap]
  apply findSome?_congr
  intro cardIdx _
  rw [head?_filter_map]
  by_cases hface :
      ((s.columns.getD srcCol []).getD cardIdx cardDefault).faceUp = true
  swap
  · rw [Bool.not_eq_true] at hface
    rw [hface]
    have : (List.range s.columns.length).filter
        (fun t => legalHintMove s (srcCol, cardIdx, t) &&
          suitMatch s (srcCol, cardIdx, t)) = [] := by
      rw [List.filter_eq_nil_iff]
      intro t _
      have hface' := hface
      simp only [List.getD_eq_getElem?_getD] at hface'
      simp [legalHintMove, hface']
    rw [this]
    rfl
  · rw [hface]
    by_cases hvalid : isValidSequence (s.columns.getD srcCol []) cardIdx = true
    swap
    · rw [Bool.not_eq_true] at hvalid
      rw [hvalid]
      have : (List.range s.columns.length).filter
          (fun t => legalHintMove s (srcCol, cardIdx, t) &&
            suitMatch s (srcCol, cardIdx, t)) = [] := by
        rw [List.filter_eq_nil_iff]
        intro t _
        have hvalid' := hvalid
        simp only [List.getD_eq_getElem?_getD] at hvalid'
        simp [legalHintMove, hvalid']
      rw [this]
      rfl
    · rw [hvalid]
      dsimp only [Bool.not_true, Bool.false_eq_true, if_false]
      have hguard : ∀ t ∈ List.range s.columns.length,
          (if t = srcCol then none
           else if (s.columns.getD t []).isEmpty then none
           else if canMoveCards (s.columns.getD srcCol []) (cardIdx : Int)
               (s.columns.getD t []) then
             if ((s.columns.getD t []).getLastD cardDefault).suit ==
                 ((s.columns.getD srcCol []).getD cardIdx cardDefault).suit
             then some (srcCol, cardIdx, t)
             else none
           else none) =
          (if legalHintMove s (srcCol, cardIdx, t) &&
              suitMatch s (srcCol, cardIdx, t) then
            some (srcCol, cardIdx, t)
          else none) := by
        intro t _
        have hface' := hface
        have hvalid' := hvalid
        simp only [List.getD_eq_getElem?_getD] at hface' hvalid'
        unfold legalHintMove suitMatch
        by_cases h1 : t = srcCol <;>
          by_cases h2 : s.columns[t]?.getD ([] : List Card) = [] <;>
          by_cases h3 : canMoveCards (s.columns[srcCol]?.getD [])
            (cardIdx : Int) (s.columns[t]?.getD []) = true <;>
          by_cases h4 : ((s.columns[t]?.getD ([] : List Card)).getLast?.getD
              cardDefault).suit =
            ((s.columns[srcCol]?.getD ([] : List Card))[cardIdx]?.getD
              cardDefault).suit <;>
          simp [h1, h2, h3, h4, hface', hvalid', List.getD_eq_getElem?_getD,
            List.getLastD_eq_getLast?]
      rw [findSome?_congr _ hguard, findSome?_guard]
      simp

/-- The tier-2 nested loops of `findHint` compute exactly the first
candidate of the spec's lexicographic search that is a legal move to a
non-empty target. -/
theorem findHintTier2_eq (s : GameState) :
    findHintTier2 s = hintSpecTier2 s := by
  unfold findHintTier2 hintSpecTier2 hintCandidates
  rw [head?_filter_flatMap]
  apply findSome?_congr
  intro srcCol _
  rw [head?_filter_flatMap]
  apply findSome?_congr
  intro cardIdx _
  rw [head?_filter_map]
  by_cases hface :
      ((s.columns.getD srcCol []).getD cardIdx cardDefault).faceUp = true
  swap
  · rw [Bool.not_eq_true] at hface
    rw [hface]
    have : (List.range s.columns.length).filter
        (fun t => legalHintMove s (srcCol, cardIdx, t)) = [] := by
      rw [List.filter_eq_nil_iff]
      intro t _
      have hface' := hface
      simp only [List.getD_eq_getElem?_getD] at hface'
      simp [legalHintMove, hface']
    rw [this]
    rfl
  · rw [hface]
    by_cases hvalid : isValidSequence (s.columns.getD srcCol []) cardIdx = true
    swap
    · rw [Bool.not_eq_true] at hvalid
      rw [hvalid]
      have : (List.range s.columns.length).filter
          (fun t => legalHintMove s (srcCol, cardIdx, t)) = [] := by
        rw [List.filter_eq_nil_iff]
        intro t _
        have hvalid' := hvalid
        simp only [List.getD_eq_getElem?_getD] at hvalid'
        simp [legalHintMove, hvalid']
      rw [this]
      rfl
    · rw [hvalid]
      have hguard : ∀ t ∈ List.range s.columns.length,
          (if t = srcCol then none
           else if canMoveCards (s.columns.getD srcCol []) (cardIdx : Int)
               (s.columns.getD t []) then
             if 0 < (s.columns.getD t []).length then
               some (srcCol, cardIdx, t)
             else none
           else none) =
          (if legalHintMove s (srcCol, cardIdx, t) then
            some (srcCol, cardIdx, t)
          else none) := by
        intro t _
        have hface' := hface
        have hvalid' := hvalid
        simp only [List.getD_eq_getElem?_getD] at hface' hvalid'
        unfold legalHintMove
        by_cases h1 : t = srcCol <;>
          by_cases h2 : s.columns[t]?.getD ([] : List Card) = [] <;>
          by_cases h3 : canMoveCards (s.columns[srcCol]?.getD [])
            (cardIdx : Int) (s.columns[t]?.getD []) = true <;>
          simp [h1, h2, h3, hface', hvalid', List.getD_eq_getElem?_getD,
            List.length_pos]
      rw [findSome?_congr _ hguard, findSome?_guard]
      simp

/-- **C9.** `findHint` returns the first same-suit-target legal move in
source-column, card-index, target-column lexicographic order; failing
that, the first legal move to any non-empty target; failing that, it
suggests dealing exactly when the stock is non-empty and reports no
moves otherwise. -/
theorem spider_C9_findHint (s : GameState) :
    findHintTier1 s = hintSpecTier1 s ∧
    findHintTier2 s = hintSpecTier2 s ∧
    findHint s =
      (match hintSpecTier1 s with
       | some (a, b, c) => Hint.move a b c true
       | none =>
         match hintSpecTier2 s with
         | some (a, b, c) => Hint.move a b c false
         | none => if s.stock = [] then Hint.noMoves else Hint.dealHint) := by
  refine ⟨findHintTier1_eq s, findHintTier2_eq s, ?_⟩
  unfold findHint
  rw [findHintTier1_eq, findHintTier2_eq]
  rcases hintSpecTier1 s with _ | ⟨⟨a, b, c⟩⟩
  · rcases hintSpecTier2 s with _ | ⟨⟨a, b, c⟩⟩
    · dsimp only
      rcases hstock : s.stock with _ | ⟨p, rest⟩
      · simp
      · simp
    · rfl
  · rfl

end Spider
